import Mathlib

/-!
Verification development for the OpenAI-to-Anthropic gateway core:
the token-budget transcript truncator (token estimation, round grouping,
round-based truncation) and the streaming protocol converter (tool-call
argument assembly, thinking-markup rendering, finish-reason mapping,
usage accounting).

The JavaScript values manipulated by the truncator are modelled by the
inductive type Json below; JS strings measured by JSON.stringify(...).length
count UTF-16 code units, modelled by jsLength.  Division by the
CHARS_PER_TOKEN ratio 3.5 followed by Math.ceil is modelled exactly by
ceilTokens (ceil (L / 3.5) = ceil (2L / 7) = (2L+6)/7); the float division
is exact for all lengths that arise because 2L/7 is never within double
rounding error of a different integer.
-/

/-- JSON-like runtime value (no undefined: an absent object field models
JS undefined, via getField returning none). -/
inductive Json where
  | null
  | bool (b : Bool)
  | num (n : Int)
  | str (s : String)
  | arr (elems : List Json)
  | obj (fields : List (String × Json))

/-- Property access j.k : none models JS undefined (absent field, or access
on a non-object). -/
def Json.getField : Json → String → Option Json
  | .obj fs, k => fs.lookup k
  | _, _ => none

/-- Object spread update, modelling JS spread syntax that rebuilds an object
with one field k set to v: the field keeps its position if present, else is
appended (objects built by JSON.parse have unique keys). Non-objects are
returned unchanged (never reached on the guarded paths). -/
def Json.spreadSet : Json → String → Json → Json
  | .obj fs, k, v =>
    if (fs.lookup k).isSome then
      .obj (fs.map (fun kv => if kv.1 = k then (kv.1, v) else kv))
    else
      .obj (fs ++ [(k, v)])
  | j, _, _ => j

/-- JS truthiness of a value. -/
def Json.jsTruthy : Json → Bool
  | .null => false
  | .bool b => b
  | .num n => n != 0
  | .str s => s != ""
  | .arr _ => true
  | .obj _ => true

/-- Lower-case hex digit, for JSON control-character escapes. -/
def hexDigit (n : Nat) : String :=
  String.singleton (Char.ofNat (if n < 10 then 48 + n else 87 + n))

/-- Escape of one character inside a JSON string literal, as produced by
JSON.stringify. -/
def jsonEscChar (c : Char) : String :=
  if c = Char.ofNat 34 then "\\\""
  else if c = Char.ofNat 92 then "\\\\"
  else if c = Char.ofNat 10 then "\\n"
  else if c = Char.ofNat 13 then "\\r"
  else if c = Char.ofNat 9 then "\\t"
  else if c = Char.ofNat 8 then "\\b"
  else if c = Char.ofNat 12 then "\\f"
  else if c.toNat < 32 then "\\u00" ++ hexDigit (c.toNat / 16) ++ hexDigit (c.toNat % 16)
  else String.singleton c

/-- A JSON string literal with quotes, as produced by JSON.stringify. -/
def jsonQuote (s : String) : String :=
  "\"" ++ (s.data.map jsonEscChar).foldl (· ++ ·) "" ++ "\""

mutual

/-- JSON.stringify of a value (objects keep insertion order, exactly as in
the JS runtime feeding the estimator). -/
def Json.stringify : Json → String
  | .null => "null"
  | .bool true => "true"
  | .bool false => "false"
  | .num n => toString n
  | .str s => jsonQuote s
  | .arr xs => "[" ++ stringifyElems xs ++ "]"
  | .obj fs => "\x7b" ++ stringifyFields fs ++ "\x7d"

/-- Comma-joined serialization of array elements. -/
def stringifyElems : List Json → String
  | [] => ""
  | [x] => x.stringify
  | x :: y :: rest => x.stringify ++ "," ++ stringifyElems (y :: rest)

/-- Comma-joined serialization of object fields. -/
def stringifyFields : List (String × Json) → String
  | [] => ""
  | [kv] => jsonQuote kv.1 ++ ":" ++ kv.2.stringify
  | kv :: f :: rest => jsonQuote kv.1 ++ ":" ++ kv.2.stringify ++ "," ++ stringifyFields (f :: rest)

end

/-- UTF-16 length of a string: what JS .length returns on the serialized
JSON (astral-plane characters count as two code units). -/
def jsLength (s : String) : Nat :=
  s.data.foldl (fun n c => n + (if c.toNat ≥ 65536 then 2 else 1)) 0

/-- Math.ceil (L / CHARS_PER_TOKEN) with CHARS_PER_TOKEN = 3.5, computed
exactly over Nat: ceil (2L / 7). -/
def ceilTokens (L : Nat) : Nat := (2 * L + 6) / 7

def TOKENS_PER_IMAGE : Nat := 1600

def MIN_MESSAGES_TO_KEEP : Nat := 4

/-- Test of the regex pattern matching a base64 image data URI:
data:image\/[^;]+;base64, anchored at the start. The greedy class [^;]+
cannot cross a semicolon, so the pattern matches iff the first semicolon
after the data:image/ stem is at offset at least 1 and is followed by the
literal base64 marker. -/
def jsB64Match (s : String) : Bool :=
  "data:image/".isPrefixOf s &&
    (let r := s.drop 11
     let i := r.data.findIdx (· = ';')
     decide (1 ≤ i) && decide (i < r.length) && ";base64,".isPrefixOf (r.drop i))

/-- part.source?.type === base64 (the first image-recognition test). -/
def isSourceB64 (p : Json) : Bool :=
  match (p.getField "source").bind (fun s => s.getField "type") with
  | some (.str t) => t = "base64"
  | _ => false

/-- part.type === t for a literal tag t. -/
def partTypeIs (p : Json) (t : String) : Bool :=
  match p.getField "type" with
  | some (.str u) => u = t
  | _ => false

/-- part.type === image_url together with a base64 data URI in
part.image_url?.url (a non-string url, which would raise a TypeError in
JS, is treated as no match; request bodies type the url as a string). -/
def isImageUrlB64 (p : Json) : Bool :=
  partTypeIs p "image_url" &&
    (match (p.getField "image_url").bind (fun u => u.getField "url") with
     | some (.str u) => jsB64Match u
     | _ => false)

/-- The per-part replacement performed inside stripBase64FromMessages and
estimateMessageTokens, returning the cleaned part and the number of images
counted for it (the source increments a counter; the branches are tried in
source order, so a part matching several tests is counted once). -/
def stripPart (p : Json) : Json × Nat :=
  if isSourceB64 p then
    let source := (p.getField "source").getD .null
    (p.spreadSet "source" (source.spreadSet "data" (.str "[IMAGE]")), 1)
  else if isImageUrlB64 p then
    let iu := (p.getField "image_url").getD .null
    (p.spreadSet "image_url" (iu.spreadSet "url" (.str "[IMAGE]")), 1)
  else if partTypeIs p "image" then
    (.obj [("type", .str "image"), ("source", .obj [("type", .str "placeholder")])], 1)
  else (p, 0)

/-- The per-message body of stripBase64FromMessages: messages whose content
is not an array, or contains no image-like part, are returned as-is; others
get a cleaned shallow copy of their content. -/
def stripMsg (msg : Json) : Json × Nat :=
  match msg.getField "content" with
  | some (.arr parts) =>
    if parts.any (fun p => partTypeIs p "image" || partTypeIs p "image_url" || isSourceB64 p) then
      (msg.spreadSet "content" (.arr (parts.map (fun p => (stripPart p).1))),
       (parts.map (fun p => (stripPart p).2)).sum)
    else (msg, 0)
  | _ => (msg, 0)

/-- stripBase64FromMessages: cleaned shallow copies of the messages plus the
total image count. -/
def stripBase64FromMessages (msgs : List Json) : List Json × Nat :=
  (msgs.map (fun m => (stripMsg m).1), (msgs.map (fun m => (stripMsg m).2)).sum)

/-- estimateTokens. The input is Option Json with none standing for JS
undefined. The result is none exactly when the JS function would throw:
a truthy non-array messages field reaching stripBase64FromMessages(...).map. -/
def estimateTokens : Option Json → Option Nat
  | none => some 0
  | some .null => some 0
  | some (.arr xs) =>
    let cleaned := stripBase64FromMessages xs
    some (ceilTokens (jsLength (Json.stringify (.arr cleaned.1))) + cleaned.2 * TOKENS_PER_IMAGE)
  | some (.obj fs) =>
    match (Json.obj fs).getField "messages" with
    | some m =>
      if m.jsTruthy then
        match m with
        | .arr xs =>
          let cleaned := stripBase64FromMessages xs
          let bodyCopy := (Json.obj fs).spreadSet "messages" (.arr cleaned.1)
          some (ceilTokens (jsLength bodyCopy.stringify) + cleaned.2 * TOKENS_PER_IMAGE)
        | _ => none
      else some (ceilTokens (jsLength (Json.stringify (.obj fs))))
    | none => some (ceilTokens (jsLength (Json.stringify (.obj fs))))
  | some j => some (ceilTokens (jsLength j.stringify))

/-- estimateMessageTokens: single-message estimate with the same image
accounting (cleaning applied unconditionally when content is an array). -/
def estimateMessageTokens (msg : Json) : Nat :=
  match msg.getField "content" with
  | some (.arr parts) =>
    ceilTokens (jsLength ((msg.spreadSet "content"
        (.arr (parts.map (fun p => (stripPart p).1)))).stringify)) +
      (parts.map (fun p => (stripPart p).2)).sum * TOKENS_PER_IMAGE
  | _ => ceilTokens (jsLength msg.stringify)

/-- A conversational round: a contiguous message span with its token
estimate (endIdx exclusive). -/
structure Round where
  startIdx : Nat
  endIdx : Nat
  tokens : Nat
  msgCount : Nat

/-- A real user turn: role user and content not made entirely of
tool_result blocks (the round-boundary test of groupIntoRounds). -/
def isRealUserMsg (msg : Json) : Bool :=
  (match msg.getField "role" with | some (.str r) => r = "user" | _ => false) &&
  !(match msg.getField "content" with
    | some (.arr parts) =>
      decide (0 < parts.length) && parts.all (fun b => partTypeIs b "tool_result")
    | _ => false)

/-- The round closed over [s, e): token estimate summed over its member
messages. -/
def mkRound (msgs : List Json) (s e : Nat) : Round :=
  { startIdx := s, endIdx := e,
    tokens := (((msgs.drop s).take (e - s)).map estimateMessageTokens).sum,
    msgCount := e - s }

/-- The scanning loop of groupIntoRounds: rest is the yet-unscanned tail
msgs.drop i, so its head is messages[i]; a round closes at every real user
turn, and a final round closes at end of array. -/
def groupGo (msgs : List Json) : List Json → Nat → Nat → List Round
  | [], _, roundStart => [mkRound msgs roundStart msgs.length]
  | m :: rest, i, roundStart =>
    if isRealUserMsg m then mkRound msgs roundStart i :: groupGo msgs rest (i + 1) i
    else groupGo msgs rest (i + 1) roundStart

/-- groupIntoRounds: scan starts at index 1, round 0 opens at index 0. -/
def groupIntoRounds (msgs : List Json) : List Round :=
  groupGo msgs (msgs.drop 1) 1 0

/-- JS strict equality on the primitive values compared by the validator
(role fields). Two object references are compared as unequal, which is the
generic case in a parsed transcript. -/
def jsPrimEq : Option Json → Option Json → Bool
  | none, none => true
  | some .null, some .null => true
  | some (.str a), some (.str b) => a = b
  | some (.num a), some (.num b) => a = b
  | some (.bool a), some (.bool b) => a = b
  | _, _ => false

/-- getToolUseIds: ids of tool_use blocks of an assistant message (a falsy
id is skipped, as in the source's truthiness test). -/
def getToolUseIds (msg : Json) : List String :=
  if jsPrimEq (msg.getField "role") (some (.str "assistant")) then
    match msg.getField "content" with
    | some (.arr blocks) => blocks.filterMap (fun b =>
        if partTypeIs b "tool_use" then
          match b.getField "id" with
          | some (.str i) => if i = "" then none else some i
          | _ => none
        else none)
    | _ => []
  else []

/-- getToolResultIds: tool_use_ids of tool_result blocks of a user message. -/
def getToolResultIds (msg : Json) : List String :=
  if jsPrimEq (msg.getField "role") (some (.str "user")) then
    match msg.getField "content" with
    | some (.arr blocks) => blocks.filterMap (fun b =>
        if partTypeIs b "tool_result" then
          match b.getField "tool_use_id" with
          | some (.str i) => if i = "" then none else some i
          | _ => none
        else none)
    | _ => []
  else []

/-- validateMessages: advisory structural checks; the truncator logs and
discards the result. -/
def validateMessages (msgs : List Json) : List String :=
  if msgs.length = 0 then ["No messages"]
  else
    (if jsPrimEq ((msgs.getD 0 .null).getField "role") (some (.str "user")) then []
     else ["First message is not user"]) ++
    (List.range' 1 (msgs.length - 1)).filterMap (fun i =>
      if jsPrimEq ((msgs.getD i .null).getField "role")
                  ((msgs.getD (i - 1) .null).getField "role") then
        some ("Consecutive roles at idx " ++ toString (i - 1) ++ "," ++ toString i)
      else none) ++
    (List.range msgs.length).flatMap (fun i =>
      let msg := msgs.getD i .null
      (getToolResultIds msg).filterMap (fun tid =>
        let prevUse := if 0 < i then getToolUseIds (msgs.getD (i - 1) .null) else []
        if tid ∈ prevUse then none
        else some ("Orphaned tool_result " ++ tid ++ " at msg " ++ toString i)) ++
      (getToolUseIds msg).filterMap (fun uid =>
        let nextRes :=
          if i + 1 < msgs.length then getToolResultIds (msgs.getD (i + 1) .null) else []
        if uid ∈ nextRes then none
        else some ("Orphaned tool_use " ++ uid ++ " at msg " ++ toString i)))

/-- The greedy marking loop of Strategy A: walk removable (interior) rounds
in order, push the round index (idx counts from 1), accumulate tokens, and
break as soon as the accumulated estimate reaches the overage. -/
def markGo : List Round → Nat → Nat → Nat → Nat × List Nat
  | [], _, acc, _ => (acc, [])
  | r :: rest, overage, acc, idx =>
    let acc2 := acc + r.tokens
    if overage ≤ acc2 then (acc2, [idx])
    else
      let res := markGo rest overage acc2 (idx + 1)
      (res.1, idx :: res.2)

/-- Descending insertion. -/
def insertDesc (x : Nat) : List Nat → List Nat
  | [] => [x]
  | y :: ys => if y ≤ x then x :: y :: ys else y :: insertDesc x ys

/-- indicesToRemove.sort((a, b) => b - a): the indices are pairwise
distinct, so any comparison sort produces this unique descending
arrangement. -/
def sortDesc : List Nat → List Nat
  | [] => []
  | x :: xs => insertDesc x (sortDesc xs)

/-- truncateIfNeeded, round-based version (the canonical truncation
strategy of the source). Result none models a thrown exception inside an
estimateTokens call; otherwise the pair is (body after the call, returned
boolean). All removal happens by splicing one index at a time in
descending order, exactly as the source does. -/
def truncateIfNeeded (body : Json) (tokenLimit : Nat) : Option (Json × Bool) :=
  match estimateTokens (body.getField "system"), estimateTokens (body.getField "tools"),
        estimateTokens (body.getField "messages"), estimateTokens (some body) with
  | some _, some _, some _, some totalEstimate =>
    if totalEstimate ≤ tokenLimit then some (body, false)
    else
      match body.getField "messages" with
      | some (.arr messages) =>
        if messages.length ≤ MIN_MESSAGES_TO_KEEP then some (body, false)
        else
          let overageTokens := totalEstimate - tokenLimit
          let rounds := groupIntoRounds messages
          if rounds.length ≤ 2 then some (body, false)
          else
            let removableRounds := (rounds.drop 1).dropLast
            let marked := markGo removableRounds overageTokens 0 1
            if marked.2.length = 0 then some (body, false)
            else
              let indicesToRemove := marked.2.flatMap (fun ri =>
                let r := rounds.getD ri ⟨0, 0, 0, 0⟩
                List.range' r.startIdx (r.endIdx - r.startIdx))
              let newMessages := (sortDesc indicesToRemove).foldl List.eraseIdx messages
              let _issues := validateMessages newMessages
              let newBody := body.spreadSet "messages" (.arr newMessages)
              match estimateTokens (some newBody) with
              | some _ => some (newBody, true)
              | none => none
      | _ => some (body, false)
  | _, _, _, _ => none

/-!
Streaming converter. JS strings on this side are modelled as lists of
characters (abbrev Str), which keeps concatenation reasoning elementary;
the thinking markers of the source are fixed opaque strings, written here
with their intended emoji code points. JS iterates strings by UTF-16 unit;
for the character-level thinking scan this is observationally equivalent to
iterating scalar values, because both halves of a surrogate pair are
non-newline, non-whitespace units.
-/

abbrev Str := List Char

/-- JS whitespace, the set trimmed by String.prototype.trim (a single
character c has truthy c.trim() iff it is none of these). -/
def jsWS (c : Char) : Bool :=
  c.toNat ∈ [9, 10, 11, 12, 13, 32, 160, 0x1680, 0x2028, 0x2029, 0x202F, 0x205F, 0x3000, 0xFEFF]
    || (0x2000 ≤ c.toNat && c.toNat ≤ 0x200A)

/-- Opening thinking marker plus paragraph break. -/
def thinkOpenMark : Str := [Char.ofNat 0x1F9E0, Char.ofNat 0x1F4AD, '\n', '\n']

/-- Closing thinking marker with horizontal rule. -/
def thinkCloseMark : Str :=
  '\n' :: '\n' :: Char.ofNat 0x1F4A4 :: Char.ofNat 0x1F9E0 :: '\n' :: '\n' ::
    '-' :: '-' :: '-' :: '\n' :: '\n' :: []

/-- One-time answer-started marker prefixed to the first plain text after a
thinking segment. -/
def answerMark : Str := [Char.ofNat 0x1F449, Char.ofNat 0x1F3FC, ' ']

/-- Truthiness of an optional JS string field modelled as Str. -/
def strT : Option Str → Bool
  | some t => !t.isEmpty
  | none => false

/-- Truthiness of an optional JS string field. -/
def sTruthy : Option String → Bool
  | some s => s != ""
  | none => false

/-- JS s || d on an optional string. -/
def jsOr (o : Option String) (d : String) : String :=
  match o with
  | some s => if s = "" then d else s
  | none => d

/-- First-occurrence String.prototype.replace on character lists. -/
def replaceFirst (l pat rep : Str) : Str :=
  match l with
  | [] => []
  | c :: rest =>
    if pat.isPrefixOf (c :: rest) then rep ++ (c :: rest).drop pat.length
    else c :: replaceFirst rest pat rep

/-- String version of replaceFirst. -/
def strReplaceFirst (s pat rep : String) : String :=
  ⟨replaceFirst s.data pat.data rep.data⟩

structure ToolCallTracker where
  id : String
  name : String
  arguments : Str

structure MetricsData where
  model : String
  stop_reason : Option String
  input_tokens : Nat
  cache_creation_input_tokens : Nat
  cache_read_input_tokens : Nat
  output_tokens : Nat
  messageId : Option String
  openAIId : Option String
  inThinking : Bool
  hadThinking : Bool
  answerStarted : Bool
  thinkingBuffer : Str
  needsBullet : Bool

structure ConverterState where
  toolCallsTracker : List (Nat × ToolCallTracker)
  metricsData : MetricsData

/-- createConverterState: the initial per-connection state. -/
def createConverterState : ConverterState :=
  { toolCallsTracker := [],
    metricsData :=
      { model := "", stop_reason := none, input_tokens := 0,
        cache_creation_input_tokens := 0, cache_read_input_tokens := 0,
        output_tokens := 0, messageId := none, openAIId := none,
        inThinking := false, hadThinking := false, answerStarted := false,
        thinkingBuffer := [], needsBullet := true } }

/-- Map.get on the tool-call tracker. -/
def trackerGet (l : List (Nat × ToolCallTracker)) (i : Nat) : Option ToolCallTracker :=
  (l.find? (fun kv => kv.1 = i)).map (·.2)

/-- Map.set on the tool-call tracker (replace in place or append, keeping
insertion order). -/
def trackerSet (l : List (Nat × ToolCallTracker)) (i : Nat) (v : ToolCallTracker) :
    List (Nat × ToolCallTracker) :=
  if (l.find? (fun kv => kv.1 = i)).isSome then
    l.map (fun kv => if kv.1 = i then (i, v) else kv)
  else l ++ [(i, v)]

structure AUsage where
  input_tokens : Option Nat
  output_tokens : Option Nat
  cache_creation_input_tokens : Option Nat
  cache_read_input_tokens : Option Nat

structure AMessageInfo where
  id : String
  model : Option String
  usage : Option AUsage
  stop_reason : Option String

structure AContentBlock where
  type : String
  id : Option String
  name : Option String

structure ADelta where
  text : Option Str
  thinking : Option Str
  partialJson : Option Str
  stop_reason : Option String

/-- A parsed upstream stream event (the post-JSON.parse value handled by
the data-line branch of processChunk). -/
structure AEvent where
  type : String
  message : Option AMessageInfo
  content_block : Option AContentBlock
  delta : Option ADelta
  index : Option Nat
  model : Option String
  stop_reason : Option String
  usage : Option AUsage

structure OAIUsage where
  prompt_tokens : Nat
  completion_tokens : Nat
  total_tokens : Nat

structure OAIFunctionDelta where
  name : Option String
  arguments : Option Str

structure OAIToolCallDelta where
  index : Nat
  id : Option String
  type : Option String
  function : Option OAIFunctionDelta

structure OAIDelta where
  role : Option String
  content : Option Str
  tool_calls : Option (List OAIToolCallDelta)

def OAIDelta.empty : OAIDelta := ⟨none, none, none⟩

structure OAIChoice where
  index : Nat
  delta : OAIDelta
  finish_reason : Option String

/-- A client-format streaming chunk (the constant object tag
chat.completion.chunk is not modelled; created is stamped from the clock
argument now). -/
structure OpenAIStreamChunk where
  id : String
  created : Nat
  model : Option String
  choices : List OAIChoice
  usage : Option OAIUsage := none

inductive ProcessResult where
  | chunk (c : OpenAIStreamChunk)
  | done
  | ping

/-- updateMetrics: accumulates ids, model, stop reason and the four token
counters from an event. -/
def updateMetrics (md : MetricsData) (e : AEvent) : MetricsData :=
  let md :=
    if e.type = "message_start" then
      match e.message with
      | some m =>
        let md := { md with messageId := some m.id }
        if sTruthy m.model then { md with model := m.model.getD "" } else md
      | none => md
    else md
  let md := if sTruthy e.model then { md with model := e.model.getD "" } else md
  let md := if sTruthy e.stop_reason then { md with stop_reason := e.stop_reason } else md
  let md :=
    if e.type = "message_delta" && sTruthy (e.delta.bind (·.stop_reason)) then
      { md with stop_reason := e.delta.bind (·.stop_reason) }
    else md
  let md :=
    match e.usage with
    | some u =>
      { md with
        input_tokens := md.input_tokens + u.input_tokens.getD 0,
        output_tokens := md.output_tokens + u.output_tokens.getD 0,
        cache_creation_input_tokens :=
          md.cache_creation_input_tokens + u.cache_creation_input_tokens.getD 0,
        cache_read_input_tokens :=
          md.cache_read_input_tokens + u.cache_read_input_tokens.getD 0 }
    | none => md
  let md :=
    match e.message.bind (·.usage) with
    | some u =>
      let md :=
        if sTruthy (e.message.bind (·.model)) then
          { md with model := (e.message.bind (·.model)).getD "" }
        else md
      { md with
        input_tokens := md.input_tokens + u.input_tokens.getD 0,
        output_tokens := md.output_tokens + u.output_tokens.getD 0,
        cache_creation_input_tokens :=
          md.cache_creation_input_tokens + u.cache_creation_input_tokens.getD 0,
        cache_read_input_tokens :=
          md.cache_read_input_tokens + u.cache_read_input_tokens.getD 0 }
    | none => md
  if sTruthy (e.message.bind (·.stop_reason)) then
    { md with stop_reason := e.message.bind (·.stop_reason) }
  else md

/-- The tool-argument fragment handling of the converter (lines guarded by
the registered tracker): returns (emitted delta, new accumulated value).
A fragment that literally extends the non-empty accumulated text is a
cumulative snapshot (delta = the suffix, accumulator replaced); anything
else is an incremental chunk (delta = the fragment, appended). -/
def assembleArgs (acc frag : Str) : Str × Str :=
  if !acc.isEmpty && acc.isPrefixOf frag then (frag.drop acc.length, frag)
  else (frag, acc ++ frag)

/-- Folding assembleArgs over a fragment sequence from a given accumulator,
collecting the emitted deltas in order and the final accumulated value. -/
def runAssemble (acc : Str) : List Str → List Str × Str
  | [] => ([], acc)
  | f :: fs =>
    let d := assembleArgs acc f
    let rest := runAssemble d.2 fs
    (d.1 :: rest.1, rest.2)

/-- The character loop of the thinking renderer: a newline closes an open
emphasis span and marks a pending bullet; a non-whitespace character with a
pending bullet first opens a paragraph-plus-emphasis; every non-newline
character is then appended. -/
def thinkCharStep (nb : Bool) (out : Str) (c : Char) : Bool × Str :=
  if c = '\n' then
    if !nb then (true, out ++ ['*']) else (nb, out)
  else
    if nb && !jsWS c then (false, out ++ ('\n' :: '\n' :: '*' :: [c]))
    else (nb, out ++ [c])

/-- One thinking fragment through the converter: emits the opening marker
on segment entry, then the character loop; returns the new state and the
content emitted for this fragment. -/
def processThinkingFragment (st : ConverterState) (text : Str) : ConverterState × Str :=
  let md := st.metricsData
  let seg :=
    if !md.inThinking then
      ({ md with inThinking := true, hadThinking := true,
                 answerStarted := false, needsBullet := true }, thinkOpenMark)
    else (md, ([] : Str))
  let md := seg.1
  let res := text.foldl (fun (p : Bool × Str) c => thinkCharStep p.1 p.2 c) (md.needsBullet, [])
  ({ st with metricsData := { md with needsBullet := res.1 } }, seg.2 ++ res.2)

/-- Content of the closing thinking chunk: an emphasis-close character iff
one is still owed (needsBullet false), then the closing marker. -/
def closeThinkingContent (md : MetricsData) : Str :=
  (if md.needsBullet then [] else ['*']) ++ thinkCloseMark

/-- A plain content chunk as built at the thinking close sites. -/
def mkContentChunk (md : MetricsData) (now : Nat) (content : Str) : OpenAIStreamChunk :=
  { id := jsOr md.openAIId ("chatcmpl-" ++ toString now),
    created := now,
    model := some (jsOr (some md.model) "claude-unknown"),
    choices := [{ index := 0, delta := { OAIDelta.empty with content := some content },
                  finish_reason := none }] }

/-- createUsageChunk: none unless input or output tokens were accumulated. -/
def createUsageChunk (st : ConverterState) (now : Nat) : Option OpenAIStreamChunk :=
  if st.metricsData.input_tokens = 0 && st.metricsData.output_tokens = 0 then none
  else
    some
      { id := jsOr st.metricsData.openAIId ("chatcmpl-" ++ toString now),
        created := now,
        model := some (jsOr (some st.metricsData.model) "claude-unknown"),
        choices := [{ index := 0, delta := OAIDelta.empty, finish_reason := none }],
        usage := some
          { prompt_tokens := st.metricsData.input_tokens,
            completion_tokens := st.metricsData.output_tokens,
            total_tokens := st.metricsData.input_tokens + st.metricsData.output_tokens } }

/-- transformToOpenAI: the event-to-chunk translation (an else-if chain in
the source, reproduced branch for branch; the logging calls carry no state). -/
def transformToOpenAI (st : ConverterState) (e : AEvent) (now : Nat) :
    ConverterState × Option OpenAIStreamChunk :=
  if hms : e.type = "message_start" ∧ e.message.isSome then
    let m := e.message.get hms.2
    let openAIId := "chatcmpl-" ++ strReplaceFirst m.id "msg_" ""
    let st := { st with metricsData := { st.metricsData with openAIId := some openAIId } }
    (st, some
      { id := openAIId, created := now, model := m.model,
        choices := [{ index := 0,
                      delta := { OAIDelta.empty with role := some "assistant", content := some [] },
                      finish_reason := none }] })
  else if e.type = "content_block_start" && (e.content_block.map (·.type) == some "tool_use") then
    let cb := (e.content_block).getD { type := "tool_use", id := none, name := none }
    let idx := e.index.getD 0
    let tc := trackerSet st.toolCallsTracker idx
      { id := cb.id.getD "", name := cb.name.getD "", arguments := [] }
    let st := { st with toolCallsTracker := tc }
    let tcd : OAIToolCallDelta :=
      { index := idx, id := cb.id, type := some "function",
        function := some { name := cb.name, arguments := some [] } }
    (st, some
      { id := jsOr st.metricsData.openAIId ("chatcmpl-" ++ toString now),
        created := now,
        model := some (jsOr (some st.metricsData.model) "claude-unknown"),
        choices := [{ index := 0,
                      delta := { OAIDelta.empty with tool_calls := some [tcd] },
                      finish_reason := none }] })
  else if e.type = "content_block_delta" && strT (e.delta.bind (·.partialJson)) then
    let frag := ((e.delta.bind (·.partialJson)).getD [])
    let idx := e.index.getD 0
    match trackerGet st.toolCallsTracker idx with
    | some toolCall =>
      let d := assembleArgs toolCall.arguments frag
      let tc := trackerSet st.toolCallsTracker idx { toolCall with arguments := d.2 }
      let st := { st with toolCallsTracker := tc }
      let tcd : OAIToolCallDelta :=
        { index := idx, id := none, type := none,
          function := some { name := none, arguments := some d.1 } }
      (st, some
        { id := jsOr st.metricsData.openAIId ("chatcmpl-" ++ toString now),
          created := now,
          model := some (jsOr (some st.metricsData.model) "claude-unknown"),
          choices := [{ index := 0,
                        delta := { OAIDelta.empty with tool_calls := some [tcd] },
                        finish_reason := none }] })
    | none => (st, none)
  else if e.type = "content_block_delta" && strT (e.delta.bind (·.thinking)) then
    let text := (e.delta.bind (·.thinking)).getD []
    let r := processThinkingFragment st text
    if r.2.isEmpty then (r.1, none)
    else (r.1, some (mkContentChunk r.1.metricsData now r.2))
  else if e.type = "content_block_delta" && strT (e.delta.bind (·.text)) then
    let text := (e.delta.bind (·.text)).getD []
    let md := st.metricsData
    let pr :=
      if md.hadThinking && !md.answerStarted then
        ({ md with answerStarted := true }, answerMark)
      else (md, ([] : Str))
    let st := { st with metricsData := pr.1 }
    (st, some (mkContentChunk pr.1 now (pr.2 ++ text)))
  else if e.type = "message_delta" && sTruthy (e.delta.bind (·.stop_reason)) then
    let s := (e.delta.bind (·.stop_reason)).getD ""
    (st, some
      { id := jsOr st.metricsData.openAIId ("chatcmpl-" ++ toString now),
        created := now,
        model := some (jsOr (some st.metricsData.model) "claude-unknown"),
        choices := [{ index := 0, delta := OAIDelta.empty,
                      finish_reason := some
                        (if s = "end_turn" then "stop"
                         else if s = "tool_use" then "tool_calls" else s) }] })
  else (st, none)

/-- processEvent: the per-parsed-event body of processChunk (ping
forwarding, thinking close on content_block_stop, the text/thinking
content_block_start skip, metrics update, event translation, the
message_stop fallback close, usage chunk and stream terminator). -/
def processEvent (st : ConverterState) (e : AEvent) (now : Nat) :
    ConverterState × List ProcessResult :=
  if e.type = "ping" then (st, [.ping])
  else if e.type = "content_block_stop" then
    if st.metricsData.inThinking then
      let content := closeThinkingContent st.metricsData
      let st2 := { st with metricsData := { st.metricsData with inThinking := false } }
      (st2, [.chunk (mkContentChunk st.metricsData now content)])
    else (st, [])
  else if e.type = "content_block_start" &&
      ((e.content_block.map (·.type) == some "text") ||
       (e.content_block.map (·.type) == some "thinking")) then
    (st, [])
  else
    let st := { st with metricsData := updateMetrics st.metricsData e }
    let tr := transformToOpenAI st e now
    let st := tr.1
    let results := match tr.2 with | some ch => [ProcessResult.chunk ch] | none => []
    let fb :=
      if e.type = "message_stop" && st.metricsData.inThinking then
        ({ st with metricsData := { st.metricsData with inThinking := false } },
         results ++ [ProcessResult.chunk (mkContentChunk st.metricsData now
           (closeThinkingContent st.metricsData))])
      else (st, results)
    let st := fb.1
    let results := fb.2
    if e.type = "message_stop" then
      (st, results ++
        (match createUsageChunk st now with
         | some u => [ProcessResult.chunk u]
         | none => []) ++ [.done])
    else (st, results)

structure AFullContentBlock where
  type : String
  id : Option String
  name : Option String
  text : Option Str
  thinking : Option Str
  input : Option Json

structure AnthropicFullResponse where
  id : String
  model : String
  content : List AFullContentBlock
  stop_reason : String
  usage : Option AUsage

structure OAIToolCallFull where
  id : String
  type : String
  name : String
  arguments : String

structure OAIRespMessage where
  role : String
  content : Option Str
  tool_calls : List OAIToolCallFull

structure OAIRespChoice where
  index : Nat
  message : OAIRespMessage
  finish_reason : Option String

structure OpenAIResponse where
  id : String
  created : Nat
  model : String
  choices : List OAIRespChoice
  usage : OAIUsage

/-- Split on runs of newlines, the regex split on one-or-more-newlines of
the non-streaming thinking reformatting: a single-character split, with the
empty pieces produced inside a run removed (boundary empties survive, and
are in any case discarded by the trim-and-filter that follows). -/
def jsSplitNewlinePlus (l : Str) : List Str :=
  match l.splitOn '\n' with
  | [] => []
  | x :: rest =>
    match rest.getLast? with
    | none => [x]
    | some last => x :: ((rest.dropLast.filter (fun s => !s.isEmpty)) ++ [last])

/-- String.prototype.trim on a character list. -/
def jsTrim (l : Str) : Str :=
  ((l.dropWhile jsWS).reverse.dropWhile jsWS).reverse

/-- The thinking reformatting of the non-streaming converter: non-empty
trimmed lines individually wrapped in emphasis, joined by paragraph breaks. -/
def thinkLines (t : Str) : Str :=
  List.intercalate ['\n', '\n']
    ((((jsSplitNewlinePlus t).map jsTrim).filter (fun s => 0 < s.length)).map
      (fun s => '*' :: (s ++ ['*'])))

/-- convertNonStreamingResponse: one complete upstream response to one
complete client response (stateless; now stamps created and the id
fallback). -/
def convertNonStreamingResponse (resp : AnthropicFullResponse) (now : Nat) : OpenAIResponse :=
  let finish : Option String :=
    if resp.stop_reason = "end_turn" then some "stop"
    else if resp.stop_reason = "tool_use" then some "tool_calls"
    else if resp.stop_reason = "" then none else some resp.stop_reason
  let walk := resp.content.foldl
    (fun (acc : Str × List OAIToolCallFull) block =>
      if block.type = "thinking" && strT block.thinking then
        (acc.1 ++ thinkOpenMark ++ thinkLines (block.thinking.getD []) ++
           thinkCloseMark ++ answerMark, acc.2)
      else if block.type = "text" then
        (acc.1 ++ (match block.text with | some t => t | none => "undefined".data), acc.2)
      else if block.type = "tool_use" && sTruthy block.id && sTruthy block.name then
        (acc.1, acc.2 ++
          [{ id := block.id.getD "", type := "function", name := block.name.getD "",
             arguments := Json.stringify
               (match block.input with
                | some j => if j.jsTruthy then j else .obj []
                | none => .obj []) }])
      else acc)
    (([] : Str), ([] : List OAIToolCallFull))
  { id := "chatcmpl-" ++ (if resp.id = "" then toString now else strReplaceFirst resp.id "msg_" ""),
    created := now,
    model := jsOr (some resp.model) "claude-unknown",
    choices := [{ index := 0,
                  message := { role := "assistant",
                               content := if walk.1.isEmpty then none else some walk.1,
                               tool_calls := walk.2 },
                  finish_reason := finish }],
    usage := { prompt_tokens := (resp.usage.bind (·.input_tokens)).getD 0,
               completion_tokens := (resp.usage.bind (·.output_tokens)).getD 0,
               total_tokens := (resp.usage.bind (·.input_tokens)).getD 0 +
                 (resp.usage.bind (·.output_tokens)).getD 0 } }

/-!
Claims. Helper lemmas are shared across claims; the claim theorems, their
witnesses and counterexamples stand alone at the end of each group.
-/

/-- Single-step soundness of the assembler: the new accumulated value is
the old one extended by the emitted delta, in both the cumulative-snapshot
and the incremental cases. -/
theorem assembleArgs_append (acc frag : Str) :
    (assembleArgs acc frag).2 = acc ++ (assembleArgs acc frag).1 := by
  unfold assembleArgs
  split
  · rename_i hcond
    have hpre : acc <+: frag := by
      have := (Bool.and_eq_true _ _).mp hcond
      exact List.isPrefixOf_iff_prefix.mp this.2
    obtain ⟨t, ht⟩ := hpre
    subst ht
    simp [List.drop_left]
  · rfl

/-- Run-level invariant: the final accumulated value extends the starting
one by the concatenation of all emitted deltas. -/
theorem runAssemble_spec (fs : List Str) :
    ∀ acc, (runAssemble acc fs).2 = acc ++ ((runAssemble acc fs).1).flatten := by
  induction fs with
  | nil => intro acc; simp [runAssemble]
  | cons f fs ih =>
    intro acc
    simp only [runAssemble, List.flatten_cons]
    rw [ih (assembleArgs acc f).2, ← List.append_assoc, ← assembleArgs_append]

/-- C2: for every sequence of tool-argument fragments delivered for one
registered tool-call index (the tracker starts with empty accumulated
arguments), whether each fragment is incremental or a cumulative snapshot,
concatenating the argument deltas emitted by the converter in order equals
the tracker's final accumulated argument string. -/
theorem tool_args_reconstruction (fs : List Str) :
    ((runAssemble [] fs).1).flatten = (runAssemble [] fs).2 := by
  rw [runAssemble_spec fs []]
  rfl

/-- Contiguous chaining of round spans from s to e: each round starts where
the previous one ended, the first at s, the last ending at e. -/
def spanChain : Nat → List Round → Nat → Prop
  | s, [], e => s = e
  | s, r :: rs, e => r.startIdx = s ∧ s ≤ r.endIdx ∧ spanChain r.endIdx rs e

/-- The grouping scan produces a chain from the open round's start to the
end of the array. -/
theorem groupGo_chain (msgs : List Json) (rest : List Json) (i roundStart : Nat)
    (h1 : roundStart ≤ i) (h2 : roundStart ≤ msgs.length)
    (h3 : rest ≠ [] → i + rest.length = msgs.length) :
    spanChain roundStart (groupGo msgs rest i roundStart) msgs.length := by
  induction rest generalizing i roundStart with
  | nil => exact ⟨rfl, h2, rfl⟩
  | cons m rest ih =>
    have hlen : i + (m :: rest).length = msgs.length := h3 (by simp)
    have hi : i ≤ msgs.length := by simp at hlen; omega
    simp only [groupGo]
    split
    · exact ⟨rfl, h1, ih (i + 1) i (Nat.le_succ i) hi (fun hne => by simp at hlen ⊢; omega)⟩
    · exact ih (i + 1) roundStart (Nat.le_trans h1 (Nat.le_succ i)) h2
        (fun hne => by simp at hlen ⊢; omega)

/-- The grouping scan never returns an empty list. -/
theorem groupGo_ne_nil (msgs : List Json) (rest : List Json) (i roundStart : Nat) :
    groupGo msgs rest i roundStart ≠ [] := by
  induction rest generalizing i roundStart with
  | nil => simp [groupGo]
  | cons m rest ih =>
    simp only [groupGo]
    split
    · simp
    · exact ih (i + 1) roundStart

/-- A chain only moves forward. -/
theorem spanChain_mono {s e : Nat} {rs : List Round} (h : spanChain s rs e) : s ≤ e := by
  induction rs generalizing s with
  | nil => exact Nat.le_of_eq h
  | cons r rs ih => exact Nat.le_trans h.2.1 (ih h.2.2)

/-- Every round of a chain lies inside [s, e) as a well-formed span. -/
theorem spanChain_within {s e : Nat} {rs : List Round} (h : spanChain s rs e) :
    ∀ r ∈ rs, s ≤ r.startIdx ∧ r.startIdx ≤ r.endIdx ∧ r.endIdx ≤ e := by
  induction rs generalizing s with
  | nil => intro r hr; cases hr
  | cons q rs ih =>
    intro r hr
    rcases List.mem_cons.mp hr with hr | hr
    · have h1 := h.1
      have h2 := h.2.1
      have h3 := spanChain_mono h.2.2
      subst hr
      exact ⟨by omega, by omega, h3⟩
    · have hrec := ih h.2.2 r hr
      exact ⟨Nat.le_trans h.2.1 hrec.1, hrec.2.1, hrec.2.2⟩

/-- Every index of [s, e) is covered by some round of the chain. -/
theorem spanChain_covers {s e : Nat} {rs : List Round} (h : spanChain s rs e) :
    ∀ n, s ≤ n → n < e → ∃ r ∈ rs, r.startIdx ≤ n ∧ n < r.endIdx := by
  induction rs generalizing s with
  | nil =>
    intro n hn hne
    have he : s = e := h
    omega
  | cons q rs ih =>
    intro n hn hne
    by_cases hq : n < q.endIdx
    · have h1 := h.1
      exact ⟨q, List.mem_cons_self _ _, by omega, hq⟩
    · obtain ⟨r, hr, hcov⟩ := ih h.2.2 n (Nat.le_of_not_lt hq) hne
      exact ⟨r, List.mem_cons_of_mem _ hr, hcov⟩

/-- Rounds of a chain are pairwise disjoint, in order. -/
theorem spanChain_pairwise {s e : Nat} {rs : List Round} (h : spanChain s rs e) :
    rs.Pairwise (fun a b => a.endIdx ≤ b.startIdx) := by
  induction rs generalizing s with
  | nil => exact List.Pairwise.nil
  | cons q rs ih =>
    refine List.Pairwise.cons ?_ (ih h.2.2)
    intro b hb
    exact (spanChain_within h.2.2 b hb).1

/-- C1: the rounds produced by groupIntoRounds partition the message index
range exactly: the list is non-empty, spans chain contiguously from 0 to
the transcript length (hence are disjoint, in order, and leave no gaps),
every index below the length is covered, every span lies inside the range,
and the first round starts at index 0. -/
theorem round_partition (msgs : List Json) :
    groupIntoRounds msgs ≠ [] ∧
    spanChain 0 (groupIntoRounds msgs) msgs.length ∧
    (∀ r ∈ groupIntoRounds msgs, r.startIdx ≤ r.endIdx ∧ r.endIdx ≤ msgs.length) ∧
    (∀ n, n < msgs.length → ∃ r ∈ groupIntoRounds msgs, r.startIdx ≤ n ∧ n < r.endIdx) ∧
    (groupIntoRounds msgs).Pairwise (fun a b => a.endIdx ≤ b.startIdx) ∧
    (∀ r, (groupIntoRounds msgs).head? = some r → r.startIdx = 0) := by
  have hchain : spanChain 0 (groupIntoRounds msgs) msgs.length :=
    groupGo_chain msgs (msgs.drop 1) 1 0 (Nat.zero_le 1) (Nat.zero_le _)
      (fun hne => by
        have h0 : 0 < (msgs.drop 1).length := List.length_pos.mpr hne
        simp [List.length_drop] at h0 ⊢
        omega)
  refine ⟨groupGo_ne_nil msgs (msgs.drop 1) 1 0, hchain, ?_, ?_, spanChain_pairwise hchain, ?_⟩
  · intro r hr
    exact ⟨(spanChain_within hchain r hr).2.1, (spanChain_within hchain r hr).2.2⟩
  · intro n hn
    exact spanChain_covers hchain n (Nat.zero_le n) hn
  · intro r hr
    cases hrs : groupIntoRounds msgs with
    | nil => rw [hrs] at hr; cases hr
    | cons q rest =>
      rw [hrs] at hr hchain
      cases hr
      exact hchain.1

/-- A message_delta event carrying only a stop reason. -/
def msgDeltaStopEvent (s : String) : AEvent :=
  { type := "message_delta", message := none, content_block := none,
    delta := some { text := none, thinking := none, partialJson := none, stop_reason := some s },
    index := none, model := none, stop_reason := none, usage := none }

/-- A complete upstream response with the given stop reason and no content. -/
def respWithStop (s : String) : AnthropicFullResponse :=
  { id := "msg_x", model := "m", content := [], stop_reason := s, usage := none }

/-- C8: the streaming finish_reason mapping (message_delta branch of
transformToOpenAI) and the non-streaming mapping (convertNonStreamingResponse)
are the same function of the upstream stop reason, on the stop reasons the
streaming branch can receive (its truthiness guard excludes the empty
string): end_turn to stop, tool_use to tool_calls, anything else passed
through unchanged. -/
theorem finish_reason_maps_agree (s : String) (hs : s ≠ "") (st : ConverterState) (now : Nat) :
    ∃ ch, (transformToOpenAI st (msgDeltaStopEvent s) now).2 = some ch ∧
      ch.choices.map (·.finish_reason) =
        [some (if s = "end_turn" then "stop" else if s = "tool_use" then "tool_calls" else s)] ∧
      (convertNonStreamingResponse (respWithStop s) now).choices.map (·.finish_reason) =
        [some (if s = "end_turn" then "stop" else if s = "tool_use" then "tool_calls" else s)] := by
  have htr : (transformToOpenAI st (msgDeltaStopEvent s) now).2 = some
      { id := jsOr st.metricsData.openAIId ("chatcmpl-" ++ toString now),
        created := now,
        model := some (jsOr (some st.metricsData.model) "claude-unknown"),
        choices := [{ index := 0, delta := OAIDelta.empty,
                      finish_reason := some (if s = "end_turn" then "stop"
                        else if s = "tool_use" then "tool_calls" else s) }] } := by
    simp [transformToOpenAI, msgDeltaStopEvent, strT, sTruthy, hs]
  refine ⟨_, htr, by simp, ?_⟩
  simp only [convertNonStreamingResponse, respWithStop, List.foldl_nil, List.map_cons,
    List.map_nil]
  split
  · simp_all
  · split
    · simp_all
    · simp_all [hs]

/-- Witness for C8 at the concrete stop reason end_turn. -/
theorem finish_reason_maps_agree_witness :
    ("end_turn" : String) ≠ "" ∧
    (∃ ch, (transformToOpenAI createConverterState (msgDeltaStopEvent "end_turn") 0).2 = some ch ∧
      ch.choices.map (·.finish_reason) =
        [some (if ("end_turn" : String) = "end_turn" then "stop"
               else if ("end_turn" : String) = "tool_use" then "tool_calls" else "end_turn")] ∧
      (convertNonStreamingResponse (respWithStop "end_turn") 0).choices.map (·.finish_reason) =
        [some (if ("end_turn" : String) = "end_turn" then "stop"
               else if ("end_turn" : String) = "tool_use" then "tool_calls" else "end_turn")]) :=
  ⟨by decide, finish_reason_maps_agree "end_turn" (by decide) createConverterState 0⟩

/-- transformToOpenAI produces no chunk and leaves the state unchanged on a
message_stop event (no branch of the chain matches that type). -/
theorem transformToOpenAI_message_stop (st : ConverterState) (e : AEvent) (now : Nat)
    (he : e.type = "message_stop") : transformToOpenAI st e now = (st, none) := by
  simp [transformToOpenAI, he]

/-- createUsageChunk emits iff input or output tokens were accumulated. -/
theorem createUsageChunk_isSome (st : ConverterState) (now : Nat) :
    (createUsageChunk st now).isSome ↔
      ¬(st.metricsData.input_tokens = 0 ∧ st.metricsData.output_tokens = 0) := by
  simp only [createUsageChunk]
  split
  · rename_i h
    simp_all
  · rename_i h
    simp_all

/-- C9, amended: on a message_stop event the emitted result list is a
(possibly empty) thinking-close prefix, then a usage chunk present iff
input or output token counts were accumulated (including this event's own
usage payload), then the stream terminator, which is always emitted and
always last. Cache-only accumulation does not trigger the usage chunk:
see usage_chunk_cache_only_cex. -/
theorem message_stop_usage_order (st : ConverterState) (e : AEvent) (now : Nat)
    (he : e.type = "message_stop") :
    ∃ st2 pre,
      processEvent st e now = (st2, pre ++
        (match createUsageChunk st2 now with
         | some u => [ProcessResult.chunk u]
         | none => []) ++ [ProcessResult.done]) ∧
      ((createUsageChunk st2 now).isSome ↔
        ¬(st2.metricsData.input_tokens = 0 ∧ st2.metricsData.output_tokens = 0)) ∧
      st2.metricsData.input_tokens = (updateMetrics st.metricsData e).input_tokens ∧
      st2.metricsData.output_tokens = (updateMetrics st.metricsData e).output_tokens := by
  by_cases hin : (updateMetrics st.metricsData e).inThinking
  · refine ⟨{ toolCallsTracker := st.toolCallsTracker,
              metricsData := { updateMetrics st.metricsData e with inThinking := false } },
            [ProcessResult.chunk (mkContentChunk (updateMetrics st.metricsData e) now
              (closeThinkingContent (updateMetrics st.metricsData e)))],
            ?_, createUsageChunk_isSome _ now, rfl, rfl⟩
    simp [processEvent, he, transformToOpenAI_message_stop _ _ _ he, hin]
  · refine ⟨{ toolCallsTracker := st.toolCallsTracker,
              metricsData := updateMetrics st.metricsData e },
            [], ?_, createUsageChunk_isSome _ now, rfl, rfl⟩
    simp [processEvent, he, transformToOpenAI_message_stop _ _ _ he, hin]

/-- A message_start event whose usage payload carries only cache-read
tokens (zero input and output). -/
def cacheOnlyStartEvent : AEvent :=
  { type := "message_start",
    message := some
      { id := "msg_1", model := some "m",
        usage := some { input_tokens := some 0, output_tokens := some 0,
                        cache_creation_input_tokens := none,
                        cache_read_input_tokens := some 5 },
        stop_reason := none },
    content_block := none, delta := none, index := none, model := none,
    stop_reason := none, usage := none }

/-- A bare message_stop event. -/
def msgStopEvent : AEvent :=
  { type := "message_stop", message := none, content_block := none, delta := none,
    index := none, model := none, stop_reason := none, usage := none }

/-- Counterexample to C9 as stated: after a stream whose only usage payload
is five cache-read tokens, token counts HAVE been accumulated (the
cache-read counter is 5), yet the message_stop processing emits no usage
chunk at all: the result list is exactly the stream terminator. The source
gates the usage chunk on input and output tokens only. -/
theorem usage_chunk_cache_only_cex :
    ((processEvent createConverterState cacheOnlyStartEvent 0).1).metricsData.cache_read_input_tokens = 5 ∧
    (processEvent ((processEvent createConverterState cacheOnlyStartEvent 0).1) msgStopEvent 0).2 =
      [ProcessResult.done] :=
  ⟨rfl, rfl⟩

/-- Witness for the amended C9 at a concrete input. -/
theorem message_stop_usage_order_witness :
    msgStopEvent.type = "message_stop" ∧
    (∃ st2 pre,
      processEvent createConverterState msgStopEvent 0 = (st2, pre ++
        (match createUsageChunk st2 0 with
         | some u => [ProcessResult.chunk u]
         | none => []) ++ [ProcessResult.done]) ∧
      ((createUsageChunk st2 0).isSome ↔
        ¬(st2.metricsData.input_tokens = 0 ∧ st2.metricsData.output_tokens = 0)) ∧
      st2.metricsData.input_tokens =
        (updateMetrics createConverterState.metricsData msgStopEvent).input_tokens ∧
      st2.metricsData.output_tokens =
        (updateMetrics createConverterState.metricsData msgStopEvent).output_tokens) :=
  ⟨rfl, message_stop_usage_order createConverterState msgStopEvent 0 rfl⟩

/-- The request body of the image-accounting test: one user message whose
content is a single base64 image block carrying the given payload. -/
def imageBody (payload : String) : Json :=
  .obj [("messages", .arr [
    .obj [("role", .str "user"),
          ("content", .arr [
            .obj [("type", .str "image"),
                  ("source", .obj [("type", .str "base64"), ("data", .str payload)])]])]])]

set_option maxHeartbeats 2000000 in
/-- C5: estimateTokens returns 0 on undefined and on null input, and on a
body holding a base64 image block the estimate is TOKENS_PER_IMAGE plus a
fixed 30 tokens (the serialized placeholder body), for every payload
whatsoever: the result is independent of the payload's length. -/
theorem estimate_image_accounting :
    estimateTokens none = some 0 ∧
    estimateTokens (some Json.null) = some 0 ∧
    ∀ payload : String,
      estimateTokens (some (imageBody payload)) = some (TOKENS_PER_IMAGE + 30) := by
  refine ⟨rfl, rfl, ?_⟩
  intro payload
  have hstrip : stripBase64FromMessages [Json.obj [("role", .str "user"),
      ("content", .arr [
        .obj [("type", .str "image"),
              ("source", .obj [("type", .str "base64"), ("data", .str payload)])]])]] =
      ([Json.obj [("role", .str "user"),
        ("content", .arr [
          .obj [("type", .str "image"),
                ("source", .obj [("type", .str "base64"), ("data", .str "[IMAGE]")])]])]], 1) := by
    simp [stripBase64FromMessages, stripMsg, stripPart, isSourceB64, partTypeIs, isImageUrlB64,
      Json.getField, Json.spreadSet, List.lookup]
  simp [estimateTokens, imageBody, Json.getField, List.lookup, Json.jsTruthy, Json.spreadSet,
    hstrip]
  decide

/-- C4: whenever truncateIfNeeded completes and returns false (total
estimate within the limit, too few messages, no removable round, or a
non-array messages field), the request body it hands back, messages array
included, is exactly the body it was given: every false-returning exit
precedes any modification. -/
theorem truncate_false_no_mutation (body : Json) (limit : Nat) (b : Json)
    (h : truncateIfNeeded body limit = some (b, false)) : b = body := by
  unfold truncateIfNeeded at h
  split at h
  all_goals try (cases h)
  split at h
  all_goals try (simp only [Option.some.injEq, Prod.mk.injEq] at h; exact h.1.symm)
  split at h
  all_goals try (simp only [Option.some.injEq, Prod.mk.injEq] at h; exact h.1.symm)
  split at h
  all_goals try (simp only [Option.some.injEq, Prod.mk.injEq] at h; exact h.1.symm)
  simp only [] at h
  split at h
  all_goals try (simp only [Option.some.injEq, Prod.mk.injEq] at h; exact h.1.symm)
  split at h
  all_goals try (simp only [Option.some.injEq, Prod.mk.injEq] at h; exact h.1.symm)
  split at h
  · simp only [Option.some.injEq, Prod.mk.injEq] at h
    exact absurd h.2 (by decide)
  · cases h

/-- Witness for C4 on a small under-limit body. -/
theorem truncate_false_no_mutation_witness :
    truncateIfNeeded (Json.obj [("messages", Json.arr [])]) 1000 =
      some (Json.obj [("messages", Json.arr [])], false) ∧
    Json.obj [("messages", Json.arr [])] = Json.obj [("messages", Json.arr [])] :=
  ⟨rfl, truncate_false_no_mutation _ 1000 _ rfl⟩

/-- An assistant message holding one tool_use block. -/
def mkToolUseMsg (tid : String) : Json :=
  .obj [("role", .str "assistant"),
        ("content", .arr [.obj [("type", .str "tool_use"), ("id", .str tid),
                                ("name", .str "t"), ("input", .obj [])]])]

/-- A user message holding one tool_result block. -/
def mkToolResultMsg (tid : String) : Json :=
  .obj [("role", .str "user"),
        ("content", .arr [.obj [("type", .str "tool_result"), ("tool_use_id", .str tid),
                                ("content", .str "ok")]])]

/-- One long single-round transcript: a real user turn, four complete
tool-call pairs, and a closing assistant message. -/
def cex3Msgs : List Json :=
  [ .obj [("role", .str "user"), ("content", .str "hello")],
    mkToolUseMsg "a", mkToolResultMsg "a",
    mkToolUseMsg "b", mkToolResultMsg "b",
    mkToolUseMsg "c", mkToolResultMsg "c",
    mkToolUseMsg "d", mkToolResultMsg "d",
    .obj [("role", .str "assistant"), ("content", .str "done")] ]

def cex3Body : Json := .obj [("messages", .arr cex3Msgs)]

/-- Modelled from the spec: the ToolPairFinder, absent from the source.
Scan adjacent index pairs (i, i+1); a pair qualifies when message i is
assistant and contains at least one tool_use block, and message i+1 is
user and contains at least one tool_result block. -/
def findToolPairs (msgs : List Json) : List (Nat × Nat) :=
  (List.range (msgs.length - 1)).filterMap (fun i =>
    let a := msgs.getD i .null
    let u := msgs.getD (i + 1) .null
    if jsPrimEq (a.getField "role") (some (.str "assistant")) &&
       (match a.getField "content" with
        | some (.arr bs) => bs.any (fun b => partTypeIs b "tool_use")
        | _ => false) &&
       jsPrimEq (u.getField "role") (some (.str "user")) &&
       (match u.getField "content" with
        | some (.arr bs) => bs.any (fun b => partTypeIs b "tool_result")
        | _ => false)
    then some (i, i + 1) else none)

/-- Modelled from the spec: the Strategy B candidate restriction, absent
from the source: pairs with assistant index at least 2 and user index
below length minus the minimum-messages-to-keep floor. -/
def strategyBCandidates (msgs : List Json) : List (Nat × Nat) :=
  (findToolPairs msgs).filter
    (fun p => decide (2 ≤ p.1) && decide (p.2 < msgs.length - MIN_MESSAGES_TO_KEEP))

set_option maxRecDepth 100000 in
set_option maxHeartbeats 2000000 in
/-- Counterexample to C3 as stated: a transcript over the limit, with more
than the minimum messages, whose grouping yields a single round (at most
2), and which holds a Strategy B candidate pair, (3, 4) — so the claimed
fallback would remove at least one pair and return true. The code returns
false: no Strategy B exists in the source, the at-most-2-rounds branch
returns false directly. -/
theorem strategyB_missing_cex :
    (truncateIfNeeded cex3Body 1).map (fun r => r.2) = some false ∧
    strategyBCandidates cex3Msgs = [(3, 4)] ∧
    (groupIntoRounds cex3Msgs).length ≤ 2 ∧
    MIN_MESSAGES_TO_KEEP < cex3Msgs.length ∧
    (match estimateTokens (some cex3Body) with | some t => 1 < t | none => False) := by
  refine ⟨by decide, by decide, by decide, by decide, ?_⟩
  have h : estimateTokens (some cex3Body) = some 217 := by decide
  rw [h]
  decide

/-- C3, amended: when the grouping finds at most 2 rounds (and the other
preconditions of the removal path hold: over the limit, more than the
minimum messages), truncateIfNeeded does not fall back to any pair-removal
strategy; it returns false with the body unchanged. -/
theorem rounds_le_two_returns_false (body : Json) (limit : Nat) (ms : List Json) (T : Nat)
    (hsys : (estimateTokens (body.getField "system")).isSome)
    (htools : (estimateTokens (body.getField "tools")).isSome)
    (hmsgs : body.getField "messages" = some (.arr ms))
    (hT : estimateTokens (some body) = some T)
    (hover : limit < T)
    (hlen : MIN_MESSAGES_TO_KEEP < ms.length)
    (hrounds : (groupIntoRounds ms).length ≤ 2) :
    truncateIfNeeded body limit = some (body, false) := by
  obtain ⟨sv, hs⟩ := Option.isSome_iff_exists.mp hsys
  obtain ⟨tv, ht⟩ := Option.isSome_iff_exists.mp htools
  unfold truncateIfNeeded
  rw [hs, ht, hmsgs, hT]
  simp only [estimateTokens]
  rw [if_neg (by omega)]
  rw [if_neg (by omega)]
  rw [if_pos hrounds]

set_option maxRecDepth 100000 in
set_option maxHeartbeats 2000000 in
/-- Witness for the amended C3 at the concrete single-round transcript. -/
theorem rounds_le_two_returns_false_witness :
    ((estimateTokens (cex3Body.getField "system")).isSome ∧
     (estimateTokens (cex3Body.getField "tools")).isSome ∧
     cex3Body.getField "messages" = some (.arr cex3Msgs) ∧
     estimateTokens (some cex3Body) = some 217 ∧
     1 < 217 ∧ MIN_MESSAGES_TO_KEEP < cex3Msgs.length ∧
     (groupIntoRounds cex3Msgs).length ≤ 2) ∧
    truncateIfNeeded cex3Body 1 = some (cex3Body, false) :=
  ⟨⟨by decide, by decide, rfl, by decide, by decide, by decide, by decide⟩,
   rounds_le_two_returns_false cex3Body 1 cex3Msgs 217 (by decide) (by decide) rfl
     (by decide) (by decide) (by decide) (by decide)⟩

/-- Sum of the token estimates of a round list. -/
def sumTokens (rs : List Round) : Nat := (rs.map (·.tokens)).sum

/-- The number of rounds the greedy loop marks: it walks the list in order
and stops with the first round whose inclusion reaches the overage. -/
def greedyCount : List Round → Nat → Nat → Nat
  | [], _, _ => 0
  | r :: rest, overage, acc =>
    if overage ≤ acc + r.tokens then 1 else 1 + greedyCount rest overage (acc + r.tokens)

/-- markGo marks exactly the first greedyCount rounds, returning their
token sum added to the accumulator and their indices counted from idx. -/
theorem markGo_eq (rs : List Round) (overage : Nat) :
    ∀ acc idx, markGo rs overage acc idx =
      (acc + sumTokens (rs.take (greedyCount rs overage acc)),
       List.range' idx (greedyCount rs overage acc)) := by
  induction rs with
  | nil => intro acc idx; simp [markGo, greedyCount, sumTokens]
  | cons r rest ih =>
    intro acc idx
    simp only [markGo, greedyCount]
    split
    · simp [sumTokens]
    · rw [ih (acc + r.tokens) (idx + 1), Nat.add_comm 1 (greedyCount rest overage (acc + r.tokens))]
      refine Prod.ext ?_ ?_
      · simp only [List.take_succ_cons, sumTokens, List.map_cons, List.sum_cons, List.map_take]
        omega
      · simp [List.range'_succ]

/-- The greedy loop marks at least one round of a non-empty list. -/
theorem greedyCount_pos (rs : List Round) (overage acc : Nat) (h : rs ≠ []) :
    1 ≤ greedyCount rs overage acc := by
  cases rs with
  | nil => exact absurd rfl h
  | cons r rest =>
    simp only [greedyCount]
    split <;> omega

/-- The greedy loop never marks more rounds than exist. -/
theorem greedyCount_le_length (rs : List Round) : ∀ overage acc,
    greedyCount rs overage acc ≤ rs.length := by
  induction rs with
  | nil => intro overage acc; simp [greedyCount]
  | cons r rest ih =>
    intro overage acc
    simp only [greedyCount, List.length_cons]
    split
    · omega
    · have := ih overage (acc + r.tokens)
      omega

/-- Greedy minimality: before each marked round is added the accumulated
estimate is still strictly below the overage (the loop stops as soon as the
target is met and marks nothing further). -/
theorem greedyCount_min (rs : List Round) : ∀ overage acc, acc < overage →
    ∀ j, j < greedyCount rs overage acc → acc + sumTokens (rs.take j) < overage := by
  induction rs with
  | nil => intro overage acc hacc j hj; simp [greedyCount] at hj
  | cons r rest ih =>
    intro overage acc hacc j hj
    simp only [greedyCount] at hj
    cases j with
    | zero => simpa [sumTokens] using hacc
    | succ j =>
      split at hj
      · omega
      · rename_i hlt
        have := ih overage (acc + r.tokens) (by omega) j (by omega)
        simp only [List.take_succ_cons, sumTokens, List.map_cons, List.sum_cons] at this ⊢
        omega

/-- Greedy saturation: either the marked rounds reach the overage, or the
whole list was marked. -/
theorem greedyCount_sat (rs : List Round) : ∀ overage acc,
    overage ≤ acc + sumTokens (rs.take (greedyCount rs overage acc)) ∨
      greedyCount rs overage acc = rs.length := by
  induction rs with
  | nil => intro overage acc; right; simp [greedyCount]
  | cons r rest ih =>
    intro overage acc
    simp only [greedyCount]
    split
    · left
      simpa [sumTokens] using (by assumption : overage ≤ acc + r.tokens)
    · rcases ih overage (acc + r.tokens) with h | h
      · left
        rw [Nat.add_comm 1 (greedyCount rest overage (acc + r.tokens))]
        simp only [List.take_succ_cons, sumTokens, List.map_cons, List.sum_cons,
          List.map_take] at h ⊢
        omega
      · right
        simp only [h, List.length_cons]
        omega

/-- Inserting below every element of a descending list appends at the end. -/
theorem insertDesc_all_gt (x : Nat) (l : List Nat) (h : ∀ y ∈ l, x < y) :
    insertDesc x l = l ++ [x] := by
  induction l with
  | nil => rfl
  | cons y ys ih =>
    simp only [insertDesc]
    rw [if_neg (by have := h y (List.mem_cons_self _ _); omega)]
    rw [ih (fun z hz => h z (List.mem_cons_of_mem _ hz))]
    simp

/-- Sorting an ascending contiguous range descending reverses it. -/
theorem sortDesc_range' : ∀ (n a : Nat), sortDesc (List.range' a n) = (List.range' a n).reverse := by
  intro n
  induction n with
  | zero => intro a; rfl
  | succ n ih =>
    intro a
    rw [List.range'_succ]
    simp only [sortDesc]
    rw [ih (a + 1)]
    rw [insertDesc_all_gt a _ (fun y hy => by
      have := List.mem_range'_1.mp (List.mem_reverse.mp hy)
      omega)]
    simp [List.range'_succ]

/-- Splicing out the indices of [a, a+n) one at a time, highest first,
removes exactly that contiguous block. -/
theorem foldl_erase_desc : ∀ (n : Nat) (ms : List Json) (a : Nat), a + n ≤ ms.length →
    ((List.range' a n).reverse).foldl List.eraseIdx ms = ms.take a ++ ms.drop (a + n) := by
  intro n
  induction n with
  | zero => intro ms a h; simp
  | succ n ih =>
    intro ms a h
    rw [List.range'_1_concat, List.reverse_append]
    simp only [List.reverse_cons, List.reverse_nil, List.nil_append, List.singleton_append,
      List.foldl_cons]
    rw [List.eraseIdx_eq_take_drop_succ]
    have hlt : a + n < ms.length := by omega
    have htkLen : (ms.take (a + n)).length = a + n := by
      rw [List.length_take]
      omega
    rw [ih (ms.take (a + n) ++ ms.drop (a + n + 1)) a (by
      rw [List.length_append, htkLen]
      have := List.length_drop (a + n + 1) ms
      omega)]
    have h1 : (ms.take (a + n) ++ ms.drop (a + n + 1)).take a = ms.take a := by
      rw [List.take_append_of_le_length (by omega), List.take_take,
        Nat.min_eq_left (by omega)]
    have h2 : (ms.take (a + n) ++ ms.drop (a + n + 1)).drop (a + n) = ms.drop (a + (n + 1)) := by
      rw [List.drop_left' htkLen, Nat.add_assoc]
    rw [h1, h2]

/-- Rounds indexed with a default are the indexed elements below length. -/
theorem getD_eq_of_lt {α : Type} (l : List α) (d : α) (i : Nat) (hi : i < l.length) :
    l.getD i d = l[i] := by
  rw [List.getD_eq_getElem?_getD, List.getElem?_eq_getElem hi]
  rfl

/-- In a chain, consecutive rounds meet exactly: each one starts where the
previous one ends. -/
theorem chain_consec {s e : Nat} {rs : List Round} (d : Round) (h : spanChain s rs e) :
    ∀ i, i + 1 < rs.length → (rs.getD (i + 1) d).startIdx = (rs.getD i d).endIdx := by
  induction rs generalizing s with
  | nil => intro i hi; simp at hi
  | cons q rest ih =>
    intro i hi
    cases i with
    | zero =>
      simp only [List.getD_cons_succ, List.getD_cons_zero]
      simp only [List.length_cons] at hi
      cases rest with
      | nil => simp at hi
      | cons r rest' => exact h.2.2.1
    | succ i =>
      simp only [List.getD_cons_succ]
      exact ih h.2.2 i (by simp at hi ⊢; omega)

/-- Every indexed round of a chain is a well-formed span. -/
theorem chain_start_le_end {s e : Nat} {rs : List Round} (d : Round) (h : spanChain s rs e)
    (i : Nat) (hi : i < rs.length) :
    (rs.getD i d).startIdx ≤ (rs.getD i d).endIdx := by
  rw [getD_eq_of_lt rs d i hi]
  exact (spanChain_within h _ (List.getElem_mem hi)).2.1

/-- Every indexed round of a chain ends within the range. -/
theorem chain_end_le {s e : Nat} {rs : List Round} (d : Round) (h : spanChain s rs e)
    (i : Nat) (hi : i < rs.length) : (rs.getD i d).endIdx ≤ e := by
  rw [getD_eq_of_lt rs d i hi]
  exact (spanChain_within h _ (List.getElem_mem hi)).2.2

/-- Earlier rounds of a chain end no later than later rounds start. -/
theorem chain_end_le_start {s e : Nat} {rs : List Round} (d : Round) (h : spanChain s rs e) :
    ∀ j i, i < j → j < rs.length → (rs.getD i d).endIdx ≤ (rs.getD j d).startIdx := by
  intro j
  induction j with
  | zero => intro i hij _; omega
  | succ j ih =>
    intro i hij hlen
    rcases Nat.lt_succ_iff_lt_or_eq.mp hij with hc | hc
    · have h1 := ih i hc (by omega)
      have h2 := chain_start_le_end d h j (by omega)
      have h3 := chain_consec d h j hlen
      omega
    · subst hc
      exact Nat.le_of_eq (chain_consec d h i hlen).symm

/-- Marked interior rounds i = 1..k have adjacent spans, so the union of
their index ranges is one contiguous range from the start of round 1 to
the end of round k. -/
theorem chain_flatMap_spans {s e : Nat} {rs : List Round} (d : Round) (h : spanChain s rs e) :
    ∀ k, 1 ≤ k → k < rs.length →
      ((List.range' 1 k).flatMap (fun ri =>
        List.range' ((rs.getD ri d).startIdx)
          ((rs.getD ri d).endIdx - (rs.getD ri d).startIdx)) =
        List.range' ((rs.getD 1 d).startIdx)
          ((rs.getD k d).endIdx - (rs.getD 1 d).startIdx)) ∧
      (rs.getD 1 d).startIdx ≤ (rs.getD k d).endIdx := by
  intro k
  induction k with
  | zero => intro h1 _; omega
  | succ k ih =>
    intro _ hk1
    by_cases hk : k = 0
    · subst hk
      constructor
      · simp
      · exact chain_start_le_end d h 1 hk1
    · obtain ⟨ihEq, ihLe⟩ := ih (by omega) (by omega)
      have hcons : (rs.getD (k + 1) d).startIdx = (rs.getD k d).endIdx :=
        chain_consec d h k hk1
      have hwf : (rs.getD (k + 1) d).startIdx ≤ (rs.getD (k + 1) d).endIdx :=
        chain_start_le_end d h (k + 1) hk1
      constructor
      · rw [List.range'_1_concat, List.flatMap_append, ihEq]
        simp only [List.flatMap_cons, List.flatMap_nil, List.append_nil]
        rw [show (1 + k) = k + 1 by omega, hcons]
        have hm : (rs.getD 1 d).startIdx +
            ((rs.getD k d).endIdx - (rs.getD 1 d).startIdx) = (rs.getD k d).endIdx := by
          omega
        have happ := List.range'_append_1 ((rs.getD 1 d).startIdx)
          ((rs.getD k d).endIdx - (rs.getD 1 d).startIdx)
          ((rs.getD (k + 1) d).endIdx - (rs.getD k d).endIdx)
        rw [hm] at happ
        rw [happ]
        congr 1
        omega
      · omega

/-- The grouping always spans the transcript contiguously from index 0. -/
theorem groupIntoRounds_chain (msgs : List Json) :
    spanChain 0 (groupIntoRounds msgs) msgs.length :=
  groupGo_chain msgs (msgs.drop 1) 1 0 (Nat.zero_le 1) (Nat.zero_le _)
    (fun hne => by
      have h0 : 0 < (msgs.drop 1).length := List.length_pos.mpr hne
      simp [List.length_drop] at h0 ⊢
      omega)

/-- Lookup after the spread-update map finds the new value whenever the key
was present. -/
theorem lookup_map_set (k : String) (v : Json) (fs : List (String × Json))
    (h : (List.lookup k fs).isSome) :
    List.lookup k (fs.map (fun kv => if kv.1 = k then (kv.1, v) else kv)) = some v := by
  induction fs with
  | nil => simp [List.lookup] at h
  | cons kv rest ih =>
    obtain ⟨a, b⟩ := kv
    rw [List.map_cons]
    by_cases hk : a = k
    · have hif : (if (a, b).1 = k then ((a, b).1, v) else (a, b)) = (a, v) := by
        simp [hk]
      rw [hif]
      have hbeq : (k == a) = true := beq_iff_eq.mpr hk.symm
      simp only [List.lookup, hbeq]
    · have hif : (if (a, b).1 = k then ((a, b).1, v) else (a, b)) = (a, b) := by
        simp [hk]
      rw [hif]
      have hbeq : (k == a) = false := beq_eq_false_iff_ne.mpr (Ne.symm hk)
      simp only [List.lookup, hbeq] at h ⊢
      exact ih h

/-- Reading back the field just written by a spread update. -/
theorem getField_spreadSet_self (j : Json) (k : String) (v : Json)
    (h : (j.getField k).isSome) : (j.spreadSet k v).getField k = some v := by
  cases j with
  | obj fs =>
    simp only [Json.getField, Json.spreadSet] at h ⊢
    rw [if_pos h]
    simp only [Json.getField]
    exact lookup_map_set k v fs h
  | null => simp [Json.getField] at h
  | bool b => simp [Json.getField] at h
  | num n => simp [Json.getField] at h
  | str s => simp [Json.getField] at h
  | arr xs => simp [Json.getField] at h

/-- estimateTokens cannot throw on a body whose messages field is an
array. -/
theorem estimateTokens_some_of_msgs_arr (j : Json) (xs : List Json)
    (h : j.getField "messages" = some (.arr xs)) :
    ∃ n, estimateTokens (some j) = some n := by
  cases j with
  | obj fs =>
    simp only [estimateTokens]
    rw [h]
    exact ⟨_, rfl⟩
  | null => simp [Json.getField] at h
  | bool b => simp [Json.getField] at h
  | num n => simp [Json.getField] at h
  | str s => simp [Json.getField] at h
  | arr ys => simp [Json.getField] at h

set_option maxHeartbeats 1000000 in
/-- C6: when grouping yields more than 2 rounds (and truncation proceeds:
over the limit, more than the minimum messages), the marked rounds are a
prefix of the interior rounds taken in original order: truncation removes
exactly the contiguous block from the start of round 1 to the end of round
k, so no message of the first round (which ends where round 1 starts) or
of the last round (which starts no earlier than round k ends) is removed;
the accumulated estimate of every proper prefix of the marked rounds is
strictly below the overage (marking stops as soon as the target is met),
and the marked rounds either reach the overage or exhaust the interior. -/
theorem strategyA_greedy_interior (body : Json) (limit : Nat) (ms : List Json) (T : Nat)
    (hsys : (estimateTokens (body.getField "system")).isSome)
    (htools : (estimateTokens (body.getField "tools")).isSome)
    (hmsgs : body.getField "messages" = some (.arr ms))
    (hT : estimateTokens (some body) = some T)
    (hover : limit < T)
    (hlen : MIN_MESSAGES_TO_KEEP < ms.length)
    (hrounds : 2 < (groupIntoRounds ms).length) :
    ∃ k,
      1 ≤ k ∧ k ≤ (groupIntoRounds ms).length - 2 ∧
      truncateIfNeeded body limit = some
        (body.spreadSet "messages" (Json.arr
          (ms.take ((groupIntoRounds ms).getD 1 ⟨0, 0, 0, 0⟩).startIdx ++
           ms.drop ((groupIntoRounds ms).getD k ⟨0, 0, 0, 0⟩).endIdx)), true) ∧
      ((groupIntoRounds ms).getD 1 ⟨0, 0, 0, 0⟩).startIdx =
        ((groupIntoRounds ms).getD 0 ⟨0, 0, 0, 0⟩).endIdx ∧
      ((groupIntoRounds ms).getD k ⟨0, 0, 0, 0⟩).endIdx ≤
        ((groupIntoRounds ms).getD ((groupIntoRounds ms).length - 1) ⟨0, 0, 0, 0⟩).startIdx ∧
      (∀ j, j < k →
        sumTokens ((((groupIntoRounds ms).drop 1).dropLast).take j) < T - limit) ∧
      (T - limit ≤ sumTokens ((((groupIntoRounds ms).drop 1).dropLast).take k) ∨
        k = (groupIntoRounds ms).length - 2) := by
  obtain ⟨sv, hs⟩ := Option.isSome_iff_exists.mp hsys
  obtain ⟨tv, ht⟩ := Option.isSome_iff_exists.mp htools
  have hchain := groupIntoRounds_chain ms
  have hremlen : ((((groupIntoRounds ms).drop 1).dropLast).length) =
      (groupIntoRounds ms).length - 2 := by
    simp only [List.length_dropLast, List.length_drop]
    omega
  have hremne : (((groupIntoRounds ms).drop 1).dropLast) ≠ [] := by
    apply List.length_pos.mp
    omega
  have hk1 : 1 ≤ greedyCount (((groupIntoRounds ms).drop 1).dropLast) (T - limit) 0 :=
    greedyCount_pos _ _ _ hremne
  have hkub : greedyCount (((groupIntoRounds ms).drop 1).dropLast) (T - limit) 0 ≤
      (groupIntoRounds ms).length - 2 := by
    rw [← hremlen]
    exact greedyCount_le_length _ _ _
  have hkl : greedyCount (((groupIntoRounds ms).drop 1).dropLast) (T - limit) 0 <
      (groupIntoRounds ms).length := by omega
  have hflat := chain_flatMap_spans (⟨0, 0, 0, 0⟩ : Round) hchain _ hk1 hkl
  have hbound := chain_end_le (⟨0, 0, 0, 0⟩ : Round) hchain _ hkl
  have htrunc : truncateIfNeeded body limit = some
      (body.spreadSet "messages" (Json.arr
        (ms.take ((groupIntoRounds ms).getD 1 ⟨0, 0, 0, 0⟩).startIdx ++
         ms.drop ((groupIntoRounds ms).getD
           (greedyCount (((groupIntoRounds ms).drop 1).dropLast) (T - limit) 0)
           ⟨0, 0, 0, 0⟩).endIdx)), true) := by
    unfold truncateIfNeeded
    obtain ⟨mv, hma⟩ : ∃ m, estimateTokens (some (Json.arr ms)) = some m := ⟨_, rfl⟩
    rw [hs, ht, hmsgs, hma, hT]
    simp only []
    rw [if_neg (by omega)]
    rw [if_neg (by omega)]
    rw [if_neg (by omega)]
    have hm2 : (markGo (((groupIntoRounds ms).drop 1).dropLast) (T - limit) 0 1).2 =
        List.range' 1 (greedyCount (((groupIntoRounds ms).drop 1).dropLast) (T - limit) 0) := by
      rw [markGo_eq]
    rw [hm2]
    rw [if_neg (by simp only [List.length_range']; omega)]
    rw [hflat.1]
    rw [sortDesc_range']
    rw [foldl_erase_desc _ ms _ (by have h2 := hflat.2; omega)]
    rw [show ((groupIntoRounds ms).getD 1 ⟨0, 0, 0, 0⟩).startIdx +
        (((groupIntoRounds ms).getD
            (greedyCount (((groupIntoRounds ms).drop 1).dropLast) (T - limit) 0)
            ⟨0, 0, 0, 0⟩).endIdx -
          ((groupIntoRounds ms).getD 1 ⟨0, 0, 0, 0⟩).startIdx) =
        ((groupIntoRounds ms).getD
          (greedyCount (((groupIntoRounds ms).drop 1).dropLast) (T - limit) 0)
          ⟨0, 0, 0, 0⟩).endIdx from by omega]
    obtain ⟨n, hn⟩ := estimateTokens_some_of_msgs_arr _ _
      (getField_spreadSet_self body "messages" _ (by rw [hmsgs]; rfl))
    rw [hn]
  refine ⟨greedyCount (((groupIntoRounds ms).drop 1).dropLast) (T - limit) 0,
    hk1, hkub, htrunc, chain_consec _ hchain 0 (by omega), ?_, ?_, ?_⟩
  · exact chain_end_le_start _ hchain ((groupIntoRounds ms).length - 1) _ (by omega) (by omega)
  · intro j hj
    have := greedyCount_min (((groupIntoRounds ms).drop 1).dropLast) (T - limit) 0
      (by omega) j hj
    simpa using this
  · rcases greedyCount_sat (((groupIntoRounds ms).drop 1).dropLast) (T - limit) 0 with h | h
    · left
      simpa using h
    · right
      rw [h, hremlen]


def mkUserTxt (s : String) : Json := .obj [("role", .str "user"), ("content", .str s)]

def mkAsstTxt (s : String) : Json := .obj [("role", .str "assistant"), ("content", .str s)]

/-- A three-round transcript: each user text message opens a round. -/
def w6Msgs : List Json :=
  [mkUserTxt "alpha", mkAsstTxt "beta", mkUserTxt "gamma", mkAsstTxt "delta",
   mkUserTxt "epsilon", mkAsstTxt "zeta"]

def w6Body : Json := .obj [("messages", .arr w6Msgs)]

set_option maxRecDepth 100000 in
set_option maxHeartbeats 2000000 in
/-- Witness for C6 on a concrete three-round over-limit transcript. -/
theorem strategyA_greedy_interior_witness :
    ((estimateTokens (w6Body.getField "system")).isSome ∧
     (estimateTokens (w6Body.getField "tools")).isSome ∧
     w6Body.getField "messages" = some (.arr w6Msgs) ∧
     estimateTokens (some w6Body) = some 67 ∧
     1 < 67 ∧ MIN_MESSAGES_TO_KEEP < w6Msgs.length ∧
     2 < (groupIntoRounds w6Msgs).length) ∧
    (∃ k,
      1 ≤ k ∧ k ≤ (groupIntoRounds w6Msgs).length - 2 ∧
      truncateIfNeeded w6Body 1 = some
        (w6Body.spreadSet "messages" (Json.arr
          (w6Msgs.take ((groupIntoRounds w6Msgs).getD 1 ⟨0, 0, 0, 0⟩).startIdx ++
           w6Msgs.drop ((groupIntoRounds w6Msgs).getD k ⟨0, 0, 0, 0⟩).endIdx)), true) ∧
      ((groupIntoRounds w6Msgs).getD 1 ⟨0, 0, 0, 0⟩).startIdx =
        ((groupIntoRounds w6Msgs).getD 0 ⟨0, 0, 0, 0⟩).endIdx ∧
      ((groupIntoRounds w6Msgs).getD k ⟨0, 0, 0, 0⟩).endIdx ≤
        ((groupIntoRounds w6Msgs).getD ((groupIntoRounds w6Msgs).length - 1)
          ⟨0, 0, 0, 0⟩).startIdx ∧
      (∀ j, j < k →
        sumTokens ((((groupIntoRounds w6Msgs).drop 1).dropLast).take j) < 67 - 1) ∧
      (67 - 1 ≤ sumTokens ((((groupIntoRounds w6Msgs).drop 1).dropLast).take k) ∨
        k = (groupIntoRounds w6Msgs).length - 2)) :=
  ⟨⟨by decide, by decide, rfl, by decide, by decide, by decide, by decide⟩,
   strategyA_greedy_interior w6Body 1 w6Msgs 67 (by decide) (by decide) rfl
     (by decide) (by decide) (by decide) (by decide)⟩

/-!
Thinking-markup balance. The rendered output is instrumented by a token
alphabet distinguishing renderer-emitted structure (markers, emphasis
opens and closes, paragraph breaks) from forwarded content characters; the
string the converter actually emits is recovered from the tokens by
tokStr, and the agreement is proved, so every structural statement about
the tokens is a statement about the emitted markup.
-/

inductive TTok where
  | openMark
  | closeMark
  | starO
  | starC
  | brk
  | pch (c : Char)
deriving DecidableEq

/-- The string a token renders to. -/
def tokChars : TTok → Str
  | .openMark => thinkOpenMark
  | .closeMark => thinkCloseMark
  | .starO => ['*']
  | .starC => ['*']
  | .brk => ['\n', '\n']
  | .pch c => [c]

/-- Rendering of a token list. -/
def tokStr (ts : List TTok) : Str := ts.flatMap tokChars

/-- Token-level character step of the thinking renderer. -/
def thinkCharStepT (nb : Bool) (c : Char) : Bool × List TTok :=
  if c = '\n' then
    if !nb then (true, [.starC]) else (nb, [])
  else
    if nb && !jsWS c then (false, [.brk, .starO, .pch c])
    else (nb, [.pch c])

/-- Token-level fragment step (header token on segment entry, then the
character loop; the resulting Bool pair is (inThinking, needsBullet)). -/
def fragToks (inThinking nb : Bool) (text : Str) : (Bool × Bool) × List TTok :=
  let header : List TTok := if !inThinking then [.openMark] else []
  let nb0 := if !inThinking then true else nb
  let res := text.foldl (fun (p : Bool × List TTok) c =>
      let s := thinkCharStepT p.1 c
      (s.1, p.2 ++ s.2)) (nb0, [])
  ((true, res.1), header ++ res.2)

/-- Token-level session: fragments folded from the initial converter
state, then the close (an emphasis-close token iff one is owed, then the
closing marker). -/
def sessionToks (frags : List Str) : List TTok :=
  let r := frags.foldl (fun (p : (Bool × Bool) × List TTok) f =>
      let s := fragToks p.1.1 p.1.2 f
      (s.1, p.2 ++ s.2)) ((false, true), [])
  r.2 ++ (if r.1.2 then [] else [.starC]) ++ [.closeMark]

/-- The string-level session: the thinking fragments through the converter
from its initial state, then the closing chunk content. -/
def renderThinkingSession (frags : List Str) : Str :=
  let r := frags.foldl (fun (p : ConverterState × Str) f =>
      let s := processThinkingFragment p.1 f
      (s.1, p.2 ++ s.2)) (createConverterState, [])
  r.2 ++ closeThinkingContent r.1.metricsData

/-- The character step agrees with its token instrumentation. -/
theorem thinkCharStep_agree (nb : Bool) (out : Str) (c : Char) :
    thinkCharStep nb out c =
      ((thinkCharStepT nb c).1, out ++ tokStr (thinkCharStepT nb c).2) := by
  unfold thinkCharStep thinkCharStepT
  split
  · split <;> simp [tokStr, tokChars]
  · split <;> simp [tokStr, tokChars]

/-- tokStr distributes over append. -/
theorem tokStr_append (a b : List TTok) : tokStr (a ++ b) = tokStr a ++ tokStr b := by
  simp [tokStr]

/-- The token-side character fold is accumulator-polymorphic. -/
theorem charFoldT_acc (text : Str) : ∀ (nb : Bool) (acc : List TTok),
    text.foldl (fun (p : Bool × List TTok) c =>
        let s := thinkCharStepT p.1 c
        (s.1, p.2 ++ s.2)) (nb, acc) =
      ((text.foldl (fun (p : Bool × List TTok) c =>
          let s := thinkCharStepT p.1 c
          (s.1, p.2 ++ s.2)) (nb, [])).1,
       acc ++ (text.foldl (fun (p : Bool × List TTok) c =>
          let s := thinkCharStepT p.1 c
          (s.1, p.2 ++ s.2)) (nb, [])).2) := by
  induction text with
  | nil => intro nb acc; simp
  | cons c rest ih =>
    intro nb acc
    simp only [List.foldl_cons]
    rw [ih (thinkCharStepT nb c).1 (acc ++ (thinkCharStepT nb c).2),
        ih (thinkCharStepT nb c).1 ([] ++ (thinkCharStepT nb c).2)]
    simp [List.append_assoc]

/-- The string-side character fold agrees with the token-side fold. -/
theorem charFold_agree (text : Str) : ∀ (nb : Bool) (out : Str),
    text.foldl (fun (p : Bool × Str) c => thinkCharStep p.1 p.2 c) (nb, out) =
      ((text.foldl (fun (p : Bool × List TTok) c =>
          let s := thinkCharStepT p.1 c
          (s.1, p.2 ++ s.2)) (nb, [])).1,
       out ++ tokStr (text.foldl (fun (p : Bool × List TTok) c =>
          let s := thinkCharStepT p.1 c
          (s.1, p.2 ++ s.2)) (nb, [])).2) := by
  induction text with
  | nil => intro nb out; simp [tokStr]
  | cons c rest ih =>
    intro nb out
    simp only [List.foldl_cons]
    rw [thinkCharStep_agree nb out c]
    rw [ih (thinkCharStepT nb c).1 (out ++ tokStr (thinkCharStepT nb c).2)]
    rw [charFoldT_acc rest (thinkCharStepT nb c).1 ([] ++ (thinkCharStepT nb c).2)]
    simp [tokStr_append, List.append_assoc]

/-- One fragment through the converter agrees with its token
instrumentation, in emitted content and in the carried flags. -/
theorem processThinkingFragment_agree (st : ConverterState) (text : Str) :
    (processThinkingFragment st text).2 =
      tokStr (fragToks st.metricsData.inThinking st.metricsData.needsBullet text).2 ∧
    (processThinkingFragment st text).1.metricsData.inThinking =
      (fragToks st.metricsData.inThinking st.metricsData.needsBullet text).1.1 ∧
    (processThinkingFragment st text).1.metricsData.needsBullet =
      (fragToks st.metricsData.inThinking st.metricsData.needsBullet text).1.2 := by
  by_cases hin : st.metricsData.inThinking
  · have hfold := charFold_agree text st.metricsData.needsBullet []
    unfold processThinkingFragment fragToks
    simp [hin, hfold, tokStr_append]
  · have hfold := charFold_agree text true []
    unfold processThinkingFragment fragToks
    simp [hin, hfold, tokStr, tokChars]

/-- The token-side fragment fold is accumulator-polymorphic. -/
theorem fragFoldT_acc (frags : List Str) : ∀ (b : Bool × Bool) (acc : List TTok),
    frags.foldl (fun (p : (Bool × Bool) × List TTok) f =>
        let s := fragToks p.1.1 p.1.2 f
        (s.1, p.2 ++ s.2)) (b, acc) =
      ((frags.foldl (fun (p : (Bool × Bool) × List TTok) f =>
          let s := fragToks p.1.1 p.1.2 f
          (s.1, p.2 ++ s.2)) (b, [])).1,
       acc ++ (frags.foldl (fun (p : (Bool × Bool) × List TTok) f =>
          let s := fragToks p.1.1 p.1.2 f
          (s.1, p.2 ++ s.2)) (b, [])).2) := by
  induction frags with
  | nil => intro b acc; simp
  | cons f fs ih =>
    intro b acc
    simp only [List.foldl_cons]
    rw [ih (fragToks b.1 b.2 f).1 (acc ++ (fragToks b.1 b.2 f).2),
        ih (fragToks b.1 b.2 f).1 ([] ++ (fragToks b.1 b.2 f).2)]
    simp [List.append_assoc]

/-- The string-side fragment fold is accumulator-polymorphic. -/
theorem fragFoldS_acc (frags : List Str) : ∀ (st : ConverterState) (acc : Str),
    frags.foldl (fun (p : ConverterState × Str) f =>
        let s := processThinkingFragment p.1 f
        (s.1, p.2 ++ s.2)) (st, acc) =
      ((frags.foldl (fun (p : ConverterState × Str) f =>
          let s := processThinkingFragment p.1 f
          (s.1, p.2 ++ s.2)) (st, [])).1,
       acc ++ (frags.foldl (fun (p : ConverterState × Str) f =>
          let s := processThinkingFragment p.1 f
          (s.1, p.2 ++ s.2)) (st, [])).2) := by
  induction frags with
  | nil => intro st acc; simp
  | cons f fs ih =>
    intro st acc
    simp only [List.foldl_cons]
    rw [ih (processThinkingFragment st f).1 (acc ++ (processThinkingFragment st f).2),
        ih (processThinkingFragment st f).1 ([] ++ (processThinkingFragment st f).2)]
    simp [List.append_assoc]

/-- The whole fragment fold agrees with its token instrumentation. -/
theorem sessionFold_agree (frags : List Str) : ∀ (st : ConverterState),
    ((frags.foldl (fun (p : ConverterState × Str) f =>
        let s := processThinkingFragment p.1 f
        (s.1, p.2 ++ s.2)) (st, [])).2 =
      tokStr ((frags.foldl (fun (p : (Bool × Bool) × List TTok) f =>
        let s := fragToks p.1.1 p.1.2 f
        (s.1, p.2 ++ s.2)) ((st.metricsData.inThinking, st.metricsData.needsBullet), [])).2)) ∧
    ((frags.foldl (fun (p : ConverterState × Str) f =>
        let s := processThinkingFragment p.1 f
        (s.1, p.2 ++ s.2)) (st, [])).1.metricsData.inThinking =
      (frags.foldl (fun (p : (Bool × Bool) × List TTok) f =>
        let s := fragToks p.1.1 p.1.2 f
        (s.1, p.2 ++ s.2)) ((st.metricsData.inThinking, st.metricsData.needsBullet), [])).1.1) ∧
    ((frags.foldl (fun (p : ConverterState × Str) f =>
        let s := processThinkingFragment p.1 f
        (s.1, p.2 ++ s.2)) (st, [])).1.metricsData.needsBullet =
      (frags.foldl (fun (p : (Bool × Bool) × List TTok) f =>
        let s := fragToks p.1.1 p.1.2 f
        (s.1, p.2 ++ s.2)) ((st.metricsData.inThinking, st.metricsData.needsBullet), [])).1.2) := by
  induction frags with
  | nil => intro st; exact ⟨rfl, rfl, rfl⟩
  | cons f fs ih =>
    intro st
    obtain ⟨ha, hb, hc⟩ := processThinkingFragment_agree st f
    have hpair : (fragToks st.metricsData.inThinking st.metricsData.needsBullet f).1 =
        ((processThinkingFragment st f).1.metricsData.inThinking,
         (processThinkingFragment st f).1.metricsData.needsBullet) := by
      rw [hb, hc]
    simp only [List.foldl_cons]
    rw [fragFoldS_acc fs (processThinkingFragment st f).1
        ([] ++ (processThinkingFragment st f).2)]
    rw [fragFoldT_acc fs (fragToks st.metricsData.inThinking st.metricsData.needsBullet f).1
        ([] ++ (fragToks st.metricsData.inThinking st.metricsData.needsBullet f).2)]
    rw [hpair]
    obtain ⟨ia, ib, ic⟩ := ih (processThinkingFragment st f).1
    refine ⟨?_, ?_, ?_⟩
    · simp only [List.nil_append, tokStr_append, ia, ha]
    · simpa using ib
    · simpa using ic

/-- The emitted session markup is exactly the rendering of its session
tokens. -/
theorem renderThinkingSession_eq (frags : List Str) :
    renderThinkingSession frags = tokStr (sessionToks frags) := by
  unfold renderThinkingSession sessionToks
  obtain ⟨ha, hb, hc⟩ := sessionFold_agree frags createConverterState
  have hinit : (createConverterState.metricsData.inThinking,
      createConverterState.metricsData.needsBullet) = (false, true) := rfl
  rw [hinit] at ha hb hc
  simp only [ha, hc, closeThinkingContent]
  by_cases hnb : (frags.foldl (fun (p : (Bool × Bool) × List TTok) f =>
      let s := fragToks p.1.1 p.1.2 f
      (s.1, p.2 ++ s.2)) ((false, true), [])).1.2
  · simp [hnb, tokStr_append, tokStr, tokChars]
  · simp [hnb, tokStr_append, tokStr, tokChars]

/-- Well-formed body token runs: the Bool state is whether an emphasis
span is open. Emphasis opens only when closed and closes only when open,
paragraph breaks happen outside spans, content characters outside a span
must be whitespace (a non-whitespace character always opens a span first),
and no thinking markers occur inside the body. -/
inductive WfToks : Bool → List TTok → Bool → Prop
  | nil (b : Bool) : WfToks b [] b
  | starO {r : List TTok} {e : Bool} : WfToks true r e → WfToks false (.starO :: r) e
  | starC {r : List TTok} {e : Bool} : WfToks false r e → WfToks true (.starC :: r) e
  | brk {r : List TTok} {e : Bool} : WfToks false r e → WfToks false (.brk :: r) e
  | chIn {c : Char} {r : List TTok} {e : Bool} :
      WfToks true r e → WfToks true (.pch c :: r) e
  | chWs {c : Char} {r : List TTok} {e : Bool} :
      jsWS c = true → WfToks false r e → WfToks false (.pch c :: r) e

/-- Well-formed runs compose. -/
theorem WfToks.append {a b c : Bool} {l m : List TTok}
    (h1 : WfToks a l b) (h2 : WfToks b m c) : WfToks a (l ++ m) c := by
  induction h1 with
  | nil => exact h2
  | starO _ ih => exact WfToks.starO (ih h2)
  | starC _ ih => exact WfToks.starC (ih h2)
  | brk _ ih => exact WfToks.brk (ih h2)
  | chIn _ ih => exact WfToks.chIn (ih h2)
  | chWs hws _ ih => exact WfToks.chWs hws (ih h2)

/-- One character's tokens form a well-formed run from the current span
state to the new one (span open iff no bullet is pending). -/
theorem wf_charToks (nb : Bool) (c : Char) :
    WfToks (!nb) (thinkCharStepT nb c).2 (!(thinkCharStepT nb c).1) := by
  unfold thinkCharStepT
  by_cases hc : c = '\n'
  · simp only [hc, if_pos rfl]
    cases nb with
    | false => exact WfToks.starC (WfToks.nil false)
    | true => exact WfToks.nil (!true)
  · rw [if_neg hc]
    by_cases hws : jsWS c
    · have : (nb && !jsWS c) = false := by simp [hws]
      rw [this, if_neg (by simp)]
      cases nb with
      | false => exact WfToks.chIn (WfToks.nil true)
      | true => exact WfToks.chWs hws (WfToks.nil false)
    · cases nb with
      | false =>
        rw [show (false && !jsWS c) = false from rfl, if_neg (by simp)]
        exact WfToks.chIn (WfToks.nil true)
      | true =>
        rw [show (true && !jsWS c) = !jsWS c from by simp]
        rw [if_pos (by simp [hws])]
        exact WfToks.brk (WfToks.starO (WfToks.chIn (WfToks.nil true)))

/-- The character fold of one fragment yields a well-formed run. -/
theorem wf_charFold (text : Str) : ∀ (nb : Bool),
    WfToks (!nb)
      ((text.foldl (fun (p : Bool × List TTok) c =>
          let s := thinkCharStepT p.1 c
          (s.1, p.2 ++ s.2)) (nb, [])).2)
      (!(text.foldl (fun (p : Bool × List TTok) c =>
          let s := thinkCharStepT p.1 c
          (s.1, p.2 ++ s.2)) (nb, [])).1) := by
  induction text with
  | nil => intro nb; exact WfToks.nil (!nb)
  | cons c rest ih =>
    intro nb
    simp only [List.foldl_cons]
    rw [charFoldT_acc rest (thinkCharStepT nb c).1 ([] ++ (thinkCharStepT nb c).2)]
    simp only [List.nil_append]
    exact WfToks.append (wf_charToks nb c) (ih (thinkCharStepT nb c).1)

/-- A non-first fragment (segment already open) emits no marker and a
well-formed run. -/
theorem wf_fragToks_rest (nb : Bool) (text : Str) :
    (fragToks true nb text).1.1 = true ∧
    (fragToks true nb text).2 =
      (text.foldl (fun (p : Bool × List TTok) c =>
          let s := thinkCharStepT p.1 c
          (s.1, p.2 ++ s.2)) (nb, [])).2 ∧
    WfToks (!nb) ((fragToks true nb text).2) (!(fragToks true nb text).1.2) := by
  refine ⟨rfl, by simp [fragToks], ?_⟩
  simp only [fragToks, Bool.not_true, List.nil_append]
  simpa using wf_charFold text nb

/-- The fragment fold after the first fragment stays inside the segment
and emits one well-formed run. -/
theorem wf_sessionFoldT (fs : List Str) : ∀ (nb : Bool),
    (fs.foldl (fun (p : (Bool × Bool) × List TTok) f =>
        let s := fragToks p.1.1 p.1.2 f
        (s.1, p.2 ++ s.2)) ((true, nb), [])).1.1 = true ∧
    WfToks (!nb)
      ((fs.foldl (fun (p : (Bool × Bool) × List TTok) f =>
          let s := fragToks p.1.1 p.1.2 f
          (s.1, p.2 ++ s.2)) ((true, nb), [])).2)
      (!(fs.foldl (fun (p : (Bool × Bool) × List TTok) f =>
          let s := fragToks p.1.1 p.1.2 f
          (s.1, p.2 ++ s.2)) ((true, nb), [])).1.2) := by
  induction fs with
  | nil => intro nb; exact ⟨rfl, WfToks.nil (!nb)⟩
  | cons f fs ih =>
    intro nb
    obtain ⟨hA, hB, hC⟩ := wf_fragToks_rest nb f
    simp only [List.foldl_cons]
    have hfrag : fragToks true nb f = ((true, (fragToks true nb f).1.2), (fragToks true nb f).2) := by
      refine Prod.ext ?_ rfl
      refine Prod.ext ?_ rfl
      exact hA
    rw [hfrag]
    rw [fragFoldT_acc fs (true, (fragToks true nb f).1.2)
        ([] ++ (fragToks true nb f).2)]
    obtain ⟨iA, iB⟩ := ih (fragToks true nb f).1.2
    refine ⟨by simpa using iA, ?_⟩
    simp only [List.nil_append]
    exact WfToks.append hC (by simpa using iB)

/-- The thinking markers never occur inside a well-formed body run. -/
theorem wf_no_marks {b e : Bool} {l : List TTok} (h : WfToks b l e) :
    ∀ t ∈ l, t ≠ TTok.openMark ∧ t ≠ TTok.closeMark := by
  induction h with
  | nil => intro t ht; cases ht
  | starO _ ih =>
    intro t ht
    rcases List.mem_cons.mp ht with rfl | ht
    · exact ⟨by simp, by simp⟩
    · exact ih t ht
  | starC _ ih =>
    intro t ht
    rcases List.mem_cons.mp ht with rfl | ht
    · exact ⟨by simp, by simp⟩
    · exact ih t ht
  | brk _ ih =>
    intro t ht
    rcases List.mem_cons.mp ht with rfl | ht
    · exact ⟨by simp, by simp⟩
    · exact ih t ht
  | chIn _ ih =>
    intro t ht
    rcases List.mem_cons.mp ht with rfl | ht
    · exact ⟨by simp, by simp⟩
    · exact ih t ht
  | chWs _ _ ih =>
    intro t ht
    rcases List.mem_cons.mp ht with rfl | ht
    · exact ⟨by simp, by simp⟩
    · exact ih t ht

/-- Emphasis opens and closes pair up: over a well-formed run the
difference of open and close counts is the difference of the end states. -/
theorem wf_count {b e : Bool} {l : List TTok} (h : WfToks b l e) :
    l.count TTok.starO + (if b then 1 else 0) =
      l.count TTok.starC + (if e then 1 else 0) := by
  induction h with
  | nil b => rfl
  | starO _ ih => simp only [List.count_cons] at ih ⊢; simp at ih ⊢; omega
  | starC _ ih => simp only [List.count_cons] at ih ⊢; simp at ih ⊢; omega
  | brk _ ih => simp only [List.count_cons] at ih ⊢; simp at ih ⊢; omega
  | chIn _ ih => simp only [List.count_cons] at ih ⊢; simp at ih ⊢; omega
  | chWs _ _ ih => simp only [List.count_cons] at ih ⊢; simp at ih ⊢; omega

/-- The first fragment of a segment emits the opening marker and then its
character tokens. -/
theorem fragToks_first (b2 : Bool) (text : Str) :
    fragToks false b2 text =
      ((true, (text.foldl (fun (p : Bool × List TTok) c =>
          let s := thinkCharStepT p.1 c
          (s.1, p.2 ++ s.2)) (true, [])).1),
       .openMark :: (text.foldl (fun (p : Bool × List TTok) c =>
          let s := thinkCharStepT p.1 c
          (s.1, p.2 ++ s.2)) (true, [])).2) := by
  simp [fragToks]

/-- C7: for any non-empty sequence of thinking fragments run through the
stream converter and then closed, the emitted markup is balanced: exactly
one opening and one closing thinking marker bracket the output, the body
between them is a well-formed emphasis run from closed to closed (emphasis
opens only when closed and closes only when open, a non-whitespace
character outside a span always opens one first, so every non-empty line
is individually bracketed), hence emphasis opens and closes are equal in
number, and the rendered string is exactly the rendering of these tokens. -/
theorem thinking_markup_balance (frags : List Str) (h1 : frags ≠ []) :
    ∃ body : List TTok,
      sessionToks frags = .openMark :: (body ++ [.closeMark]) ∧
      WfToks false body false ∧
      (∀ t ∈ body, t ≠ TTok.openMark ∧ t ≠ TTok.closeMark) ∧
      body.count TTok.starO = body.count TTok.starC ∧
      renderThinkingSession frags = tokStr (sessionToks frags) := by
  cases frags with
  | nil => exact absurd rfl h1
  | cons f fs =>
    obtain ⟨nb1, toks1, hcf⟩ : ∃ nb1 toks1,
        f.foldl (fun (p : Bool × List TTok) c =>
          let s := thinkCharStepT p.1 c
          (s.1, p.2 ++ s.2)) (true, []) = (nb1, toks1) := ⟨_, _, rfl⟩
    obtain ⟨S, R2, hrf⟩ : ∃ S R2,
        fs.foldl (fun (p : (Bool × Bool) × List TTok) f =>
          let s := fragToks p.1.1 p.1.2 f
          (s.1, p.2 ++ s.2)) ((true, nb1), []) = (S, R2) := ⟨_, _, rfl⟩
    have hfrag : fragToks false true f = ((true, nb1), .openMark :: toks1) := by
      rw [fragToks_first true f, hcf]
    have hsess : sessionToks (f :: fs) =
        .openMark :: ((toks1 ++ R2 ++ (if S.2 then [] else [.starC])) ++ [.closeMark]) := by
      unfold sessionToks
      simp only [List.foldl_cons]
      simp only [hfrag]
      simp only [fragFoldT_acc fs (true, nb1) ([] ++ (TTok.openMark :: toks1))]
      simp only [hrf]
      simp [List.append_assoc]
    have hwf1 : WfToks false toks1 (!nb1) := by
      have h := wf_charFold f true
      rw [hcf] at h
      simpa using h
    obtain ⟨hS1, hwf2⟩ := wf_sessionFoldT fs nb1
    rw [hrf] at hwf2
    have howed : WfToks (!S.2) (if S.2 then [] else [.starC]) false := by
      by_cases hS2 : S.2
      · rw [if_pos hS2, hS2]
        exact WfToks.nil false
      · rw [if_neg hS2]
        have hS2f : S.2 = false := by simpa using hS2
        rw [hS2f]
        exact WfToks.starC (WfToks.nil false)
    have hbody : WfToks false (toks1 ++ R2 ++ (if S.2 then [] else [.starC])) false :=
      WfToks.append (WfToks.append hwf1 hwf2) howed
    refine ⟨toks1 ++ R2 ++ (if S.2 then [] else [.starC]), hsess, hbody,
      wf_no_marks hbody, ?_, renderThinkingSession_eq (f :: fs)⟩
    have hcount := wf_count hbody
    simpa using hcount

/-- Witness: the balance theorem instantiated on a concrete two-fragment
thinking session. -/
theorem thinking_markup_balance_witness :
    ∃ body : List TTok,
      sessionToks ["ab\ncd".data, " e".data] = .openMark :: (body ++ [.closeMark]) ∧
      WfToks false body false ∧
      (∀ t ∈ body, t ≠ TTok.openMark ∧ t ≠ TTok.closeMark) ∧
      body.count TTok.starO = body.count TTok.starC ∧
      renderThinkingSession ["ab\ncd".data, " e".data] =
        tokStr (sessionToks ["ab\ncd".data, " e".data]) :=
  thinking_markup_balance ["ab\ncd".data, " e".data] (by simp)

/-- Heap values: JS primitives are immediate, objects and arrays are
references into a heap of nodes, so that mutation (in-place update of a
node) is expressible and its absence provable. -/
inductive HVal
  | hnull
  | hbool (b : Bool)
  | hnum (n : Int)
  | hstr (s : String)
  | href (a : Nat)

/-- Heap nodes: a JS object (ordered fields) or array. -/
inductive HNode
  | hobj (fs : List (String × HVal))
  | harr (es : List HVal)

/-- The heap: nodes addressed by allocation order. -/
abbrev Heap := List HNode

/-- Allocation of a fresh node, returning the extended heap and a
reference to the new node. -/
def hAllocNode (h : Heap) (n : HNode) : Heap × HVal :=
  (h ++ [n], .href h.length)

/-- In-place field assignment obj.k = w: the mutation primitive of the
model. The estimators never use it: every theorem below shows they only
append fresh nodes. -/
def hSetField (h : Heap) (a : Nat) (k : String) (w : HVal) : Heap :=
  match h[a]? with
  | some (.hobj fs) =>
    h.set a (.hobj (fs.map (fun kv => if kv.1 = k then (kv.1, w) else kv)))
  | _ => h

/-- Property read v.k over the heap: none models JS undefined. -/
def hField (h : Heap) (v : HVal) (k : String) : Option HVal :=
  match v with
  | .href a =>
    match h[a]? with
    | some (.hobj fs) => fs.lookup k
    | _ => none
  | _ => none

/-- JS truthiness of a heap value (objects and arrays are truthy). -/
def hTruthy : HVal → Bool
  | .hnull => false
  | .hbool b => b
  | .hnum n => n != 0
  | .hstr s => s != ""
  | .href _ => true

/-- Object spread with one field set, over the heap: reads the spread
object and allocates a fresh node for the result, leaving the original
node untouched. -/
def hSpreadSet (h : Heap) (v : HVal) (k : String) (w : HVal) : Heap × HVal :=
  match v with
  | .href a =>
    match h[a]? with
    | some (.hobj fs) =>
      if (fs.lookup k).isSome then
        hAllocNode h (.hobj (fs.map (fun kv => if kv.1 = k then (kv.1, w) else kv)))
      else
        hAllocNode h (.hobj (fs ++ [(k, w)]))
    | _ => (h, v)
  | _ => (h, v)

mutual

/-- Reading a heap value as a tree, fuel-bounded (every recursive call
spends one unit, so the definition is structural and evaluates). -/
def jsonOfHeap : Nat → Heap → HVal → Option Json
  | 0, _, _ => none
  | _ + 1, _, .hnull => some Json.null
  | _ + 1, _, .hbool b => some (Json.bool b)
  | _ + 1, _, .hnum n => some (Json.num n)
  | _ + 1, _, .hstr s => some (Json.str s)
  | fuel + 1, h, .href a =>
    match h[a]? with
    | some (.harr es) => (jsonOfHeapElems fuel h es).map Json.arr
    | some (.hobj fs) => (jsonOfHeapFields fuel h fs).map Json.obj
    | none => none

/-- Tree reading of a list of array elements. -/
def jsonOfHeapElems : Nat → Heap → List HVal → Option (List Json)
  | 0, _, _ => none
  | _ + 1, _, [] => some []
  | fuel + 1, h, v :: vs =>
    match jsonOfHeap fuel h v, jsonOfHeapElems fuel h vs with
    | some j, some js => some (j :: js)
    | _, _ => none

/-- Tree reading of object fields. -/
def jsonOfHeapFields : Nat → Heap → List (String × HVal) → Option (List (String × Json))
  | 0, _, _ => none
  | _ + 1, _, [] => some []
  | fuel + 1, h, kv :: fs =>
    match jsonOfHeap fuel h kv.2, jsonOfHeapFields fuel h fs with
    | some j, some js => some ((kv.1, j) :: js)
    | _, _ => none

end

/-- part.source?.type === base64, over the heap. -/
def isSourceB64H (h : Heap) (p : HVal) : Bool :=
  match (hField h p "source").bind (fun s => hField h s "type") with
  | some (.hstr t) => t = "base64"
  | _ => false

/-- part.type === t, over the heap. -/
def partTypeIsH (h : Heap) (p : HVal) (t : String) : Bool :=
  match hField h p "type" with
  | some (.hstr u) => u = t
  | _ => false

/-- part.type === image_url with a base64 data URI in
part.image_url?.url, over the heap. -/
def isImageUrlB64H (h : Heap) (p : HVal) : Bool :=
  partTypeIsH h p "image_url" &&
    (match (hField h p "image_url").bind (fun u => hField h u "url") with
     | some (.hstr u) => jsB64Match u
     | _ => false)

/-- The per-part replacement of stripBase64FromMessages and
estimateMessageTokens over the heap: each taken branch allocates the inner
object literal, then the outer one, and increments the image count; the
argument part is only read. -/
def stripPartH (h : Heap) (p : HVal) : Heap × HVal × Nat :=
  if isSourceB64H h p then
    let source := (hField h p "source").getD .hnull
    let r1 := hSpreadSet h source "data" (.hstr "[IMAGE]")
    let r2 := hSpreadSet r1.1 p "source" r1.2
    (r2.1, r2.2, 1)
  else if isImageUrlB64H h p then
    let iu := (hField h p "image_url").getD .hnull
    let r1 := hSpreadSet h iu "url" (.hstr "[IMAGE]")
    let r2 := hSpreadSet r1.1 p "image_url" r1.2
    (r2.1, r2.2, 1)
  else if partTypeIsH h p "image" then
    let r1 := hAllocNode h (.hobj [("type", .hstr "placeholder")])
    let r2 := hAllocNode r1.1 (.hobj [("type", .hstr "image"), ("source", r1.2)])
    (r2.1, r2.2, 1)
  else (h, p, 0)

/-- One step of a .map over parts, threading the heap, the new elements
and the image count. -/
def stripStep (acc : Heap × List HVal × Nat) (p : HVal) : Heap × List HVal × Nat :=
  let s := stripPartH acc.1 p
  (s.1, acc.2.1 ++ [s.2.1], acc.2.2 + s.2.2)

/-- The per-message body of stripBase64FromMessages over the heap:
messages without an array content, or without an image-like part, are
returned as-is; otherwise a fresh content array and a fresh shallow copy
of the message are allocated. -/
def stripMsgH (h : Heap) (msg : HVal) : Heap × HVal × Nat :=
  match hField h msg "content" with
  | some (.href a) =>
    match h[a]? with
    | some (.harr parts) =>
      if parts.any (fun p =>
          partTypeIsH h p "image" || partTypeIsH h p "image_url" || isSourceB64H h p) then
        let r := parts.foldl stripStep (h, [], 0)
        let rarr := hAllocNode r.1 (.harr r.2.1)
        let robj := hSpreadSet rarr.1 msg "content" rarr.2
        (robj.1, robj.2, r.2.2)
      else (h, msg, 0)
    | _ => (h, msg, 0)
  | _ => (h, msg, 0)

/-- One step of the .map over messages. -/
def stripMsgStep (acc : Heap × List HVal × Nat) (m : HVal) : Heap × List HVal × Nat :=
  let s := stripMsgH acc.1 m
  (s.1, acc.2.1 ++ [s.2.1], acc.2.2 + s.2.2)

/-- stripBase64FromMessages over the heap: maps stripMsgH over the
elements, returning the heap, the cleaned elements and the image count. -/
def stripBase64FromMessagesH (h : Heap) (msgs : List HVal) : Heap × List HVal × Nat :=
  msgs.foldl stripMsgStep (h, [], 0)

/-- estimateTokens over the heap: none for the token count models a JS
throw (a truthy non-array messages field reaching .map); serialization is
the fuel-bounded tree reading followed by the tree stringifier. -/
def estimateTokensH (fuel : Nat) (h : Heap) (v : Option HVal) : Heap × Option Nat :=
  match v with
  | none => (h, some 0)
  | some .hnull => (h, some 0)
  | some (.hbool b) => (h, some (ceilTokens (jsLength (Json.bool b).stringify)))
  | some (.hnum n) => (h, some (ceilTokens (jsLength (Json.num n).stringify)))
  | some (.hstr s) => (h, some (ceilTokens (jsLength (Json.str s).stringify)))
  | some (.href a) =>
    match h[a]? with
    | some (.harr xs) =>
      let r := stripBase64FromMessagesH h xs
      let rarr := hAllocNode r.1 (.harr r.2.1)
      (rarr.1, (jsonOfHeap fuel rarr.1 rarr.2).map (fun aj =>
        ceilTokens (jsLength aj.stringify) + r.2.2 * TOKENS_PER_IMAGE))
    | some (.hobj fs) =>
      match fs.lookup "messages" with
      | some m =>
        if hTruthy m then
          match m with
          | .href ma =>
            match h[ma]? with
            | some (.harr xs) =>
              let r := stripBase64FromMessagesH h xs
              let rarr := hAllocNode r.1 (.harr r.2.1)
              let rbody := hSpreadSet rarr.1 (.href a) "messages" rarr.2
              (rbody.1, (jsonOfHeap fuel rbody.1 rbody.2).map (fun bj =>
                ceilTokens (jsLength bj.stringify) + r.2.2 * TOKENS_PER_IMAGE))
            | _ => (h, none)
          | _ => (h, none)
        else (h, (jsonOfHeap fuel h (.href a)).map (fun bj => ceilTokens (jsLength bj.stringify)))
      | none => (h, (jsonOfHeap fuel h (.href a)).map (fun bj => ceilTokens (jsLength bj.stringify)))
    | none => (h, none)

/-- estimateMessageTokens over the heap: unconditional cleaning when the
content is an array, then serialization of a fresh shallow copy. -/
def estimateMessageTokensH (fuel : Nat) (h : Heap) (msg : HVal) : Heap × Option Nat :=
  match hField h msg "content" with
  | some (.href a) =>
    match h[a]? with
    | some (.harr parts) =>
      let r := parts.foldl stripStep (h, [], 0)
      let rarr := hAllocNode r.1 (.harr r.2.1)
      let robj := hSpreadSet rarr.1 msg "content" rarr.2
      (robj.1, (jsonOfHeap fuel robj.1 robj.2).map (fun mj =>
        ceilTokens (jsLength mj.stringify) + r.2.2 * TOKENS_PER_IMAGE))
    | _ => (h, (jsonOfHeap fuel h msg).map (fun mj => ceilTokens (jsLength mj.stringify)))
  | _ => (h, (jsonOfHeap fuel h msg).map (fun mj => ceilTokens (jsLength mj.stringify)))

/-- Reads are stable under heap extension. -/
theorem hGet_mono {h h' : Heap} (hp : h <+: h') {a : Nat} {n : HNode}
    (hg : h[a]? = some n) : h'[a]? = some n := by
  obtain ⟨t, rfl⟩ := hp
  have hlt : a < h.length := by
    by_contra hge
    rw [List.getElem?_eq_none (by omega)] at hg
    cases hg
  rw [List.getElem?_append_left hlt]
  exact hg

/-- Allocation only extends the heap. -/
theorem hAllocNode_ext (h : Heap) (n : HNode) : h <+: (hAllocNode h n).1 :=
  ⟨[n], rfl⟩

/-- Spread-update only extends the heap. -/
theorem hSpreadSet_ext (h : Heap) (v : HVal) (k : String) (w : HVal) :
    h <+: (hSpreadSet h v k w).1 := by
  unfold hSpreadSet
  split
  · split
    · split
      · exact hAllocNode_ext _ _
      · exact hAllocNode_ext _ _
    · exact List.prefix_rfl
  · exact List.prefix_rfl

/-- Per-part cleaning only extends the heap. -/
theorem stripPartH_ext (h : Heap) (p : HVal) : h <+: (stripPartH h p).1 := by
  unfold stripPartH
  split
  · exact List.IsPrefix.trans (hSpreadSet_ext _ _ _ _) (hSpreadSet_ext _ _ _ _)
  · split
    · exact List.IsPrefix.trans (hSpreadSet_ext _ _ _ _) (hSpreadSet_ext _ _ _ _)
    · split
      · exact List.IsPrefix.trans (hAllocNode_ext _ _) (hAllocNode_ext _ _)
      · exact List.prefix_rfl

/-- The parts fold only extends the heap. -/
theorem stripFold_ext (parts : List HVal) : ∀ (h : Heap) (es : List HVal) (c : Nat),
    h <+: (parts.foldl stripStep (h, es, c)).1 := by
  induction parts with
  | nil => intro h es c; exact List.prefix_rfl
  | cons p ps ih =>
    intro h es c
    simp only [List.foldl_cons]
    exact List.IsPrefix.trans (stripPartH_ext h p)
      (ih (stripPartH h p).1 (es ++ [(stripPartH h p).2.1]) (c + (stripPartH h p).2.2))

/-- Per-message cleaning only extends the heap. -/
theorem stripMsgH_ext (h : Heap) (msg : HVal) : h <+: (stripMsgH h msg).1 := by
  unfold stripMsgH
  split
  · split
    · split
      · exact List.IsPrefix.trans (stripFold_ext _ h [] 0)
          (List.IsPrefix.trans (hAllocNode_ext _ _) (hSpreadSet_ext _ _ _ _))
      · exact List.prefix_rfl
    · exact List.prefix_rfl
  · exact List.prefix_rfl

/-- The message fold only extends the heap. -/
theorem stripMsgFold_ext (msgs : List HVal) : ∀ (h : Heap) (es : List HVal) (c : Nat),
    h <+: (msgs.foldl stripMsgStep (h, es, c)).1 := by
  induction msgs with
  | nil => intro h es c; exact List.prefix_rfl
  | cons m ms ih =>
    intro h es c
    simp only [List.foldl_cons]
    exact List.IsPrefix.trans (stripMsgH_ext h m)
      (ih (stripMsgH h m).1 (es ++ [(stripMsgH h m).2.1]) (c + (stripMsgH h m).2.2))

/-- stripBase64FromMessages only extends the heap. -/
theorem stripBase64FromMessagesH_ext (h : Heap) (msgs : List HVal) :
    h <+: (stripBase64FromMessagesH h msgs).1 :=
  stripMsgFold_ext msgs h [] 0

/-- estimateTokens only extends the heap. -/
theorem estimateTokensH_ext (fuel : Nat) (h : Heap) (v : Option HVal) :
    h <+: (estimateTokensH fuel h v).1 := by
  unfold estimateTokensH
  split
  · exact List.prefix_rfl
  · exact List.prefix_rfl
  · exact List.prefix_rfl
  · exact List.prefix_rfl
  · exact List.prefix_rfl
  · split
    · exact List.IsPrefix.trans (stripBase64FromMessagesH_ext h _) (hAllocNode_ext _ _)
    · split
      · split
        · split
          · split
            · exact List.IsPrefix.trans (stripBase64FromMessagesH_ext h _)
                (List.IsPrefix.trans (hAllocNode_ext _ _) (hSpreadSet_ext _ _ _ _))
            · exact List.prefix_rfl
          · exact List.prefix_rfl
        · exact List.prefix_rfl
      · exact List.prefix_rfl
    · exact List.prefix_rfl

/-- estimateMessageTokens only extends the heap. -/
theorem estimateMessageTokensH_ext (fuel : Nat) (h : Heap) (msg : HVal) :
    h <+: (estimateMessageTokensH fuel h msg).1 := by
  unfold estimateMessageTokensH
  split
  · split
    · exact List.IsPrefix.trans (stripFold_ext _ h [] 0)
        (List.IsPrefix.trans (hAllocNode_ext _ _) (hSpreadSet_ext _ _ _ _))
    · exact List.prefix_rfl
  · exact List.prefix_rfl

/-- Tree readings are stable under heap extension: any value readable in
the old heap reads to the same tree in the extended heap. -/
theorem jsonOfHeap_mono : ∀ (fuel : Nat) (h h' : Heap), h <+: h' →
    (∀ v j, jsonOfHeap fuel h v = some j → jsonOfHeap fuel h' v = some j) ∧
    (∀ es js, jsonOfHeapElems fuel h es = some js → jsonOfHeapElems fuel h' es = some js) ∧
    (∀ fs os, jsonOfHeapFields fuel h fs = some os → jsonOfHeapFields fuel h' fs = some os) := by
  intro fuel
  induction fuel with
  | zero =>
    intro h h' hp
    refine ⟨?_, ?_, ?_⟩ <;> intro x y hx <;> exact absurd hx (by simp [jsonOfHeap, jsonOfHeapElems, jsonOfHeapFields])
  | succ fuel ih =>
    intro h h' hp
    refine ⟨?_, ?_, ?_⟩
    · intro v j hv
      cases v with
      | hnull => simpa [jsonOfHeap] using hv
      | hbool b => simpa [jsonOfHeap] using hv
      | hnum n => simpa [jsonOfHeap] using hv
      | hstr s => simpa [jsonOfHeap] using hv
      | href a =>
        simp only [jsonOfHeap] at hv ⊢
        cases hg : h[a]? with
        | none => rw [hg] at hv; cases hv
        | some node =>
          rw [hg] at hv
          rw [hGet_mono hp hg]
          cases node with
          | harr es =>
            replace hv : (jsonOfHeapElems fuel h es).map Json.arr = some j := hv
            show (jsonOfHeapElems fuel h' es).map Json.arr = some j
            cases he : jsonOfHeapElems fuel h es with
            | none => rw [he] at hv; cases hv
            | some js =>
              rw [he] at hv
              rw [(ih h h' hp).2.1 es js he]
              exact hv
          | hobj fs =>
            replace hv : (jsonOfHeapFields fuel h fs).map Json.obj = some j := hv
            show (jsonOfHeapFields fuel h' fs).map Json.obj = some j
            cases hf : jsonOfHeapFields fuel h fs with
            | none => rw [hf] at hv; cases hv
            | some os =>
              rw [hf] at hv
              rw [(ih h h' hp).2.2 fs os hf]
              exact hv
    · intro es js he
      cases es with
      | nil => simpa [jsonOfHeapElems] using he
      | cons v vs =>
        simp only [jsonOfHeapElems] at he ⊢
        cases h1 : jsonOfHeap fuel h v with
        | none => rw [h1] at he; cases he
        | some j1 =>
          cases h2 : jsonOfHeapElems fuel h vs with
          | none => rw [h1, h2] at he; cases he
          | some js2 =>
            rw [h1, h2] at he
            rw [(ih h h' hp).1 v j1 h1, (ih h h' hp).2.1 vs js2 h2]
            exact he
    · intro fs os hf
      cases fs with
      | nil => simpa [jsonOfHeapFields] using hf
      | cons kv kvs =>
        simp only [jsonOfHeapFields] at hf ⊢
        cases h1 : jsonOfHeap fuel h kv.2 with
        | none => rw [h1] at hf; cases hf
        | some j1 =>
          cases h2 : jsonOfHeapFields fuel h kvs with
          | none => rw [h1, h2] at hf; cases hf
          | some os2 =>
            rw [h1, h2] at hf
            rw [(ih h h' hp).1 kv.2 j1 h1, (ih h h' hp).2.2 kvs os2 h2]
            exact hf

/-- Concrete heap for the witness: a request body at address 5 whose
messages array (address 4) holds one user message (address 3) with a
content array (address 2) containing one base64 image part (address 1)
with its source object (address 0). -/
def w10Heap : Heap :=
  [.hobj [("type", .hstr "base64"), ("data", .hstr "QUFBQQ==")],
   .hobj [("type", .hstr "image"), ("source", .href 0)],
   .harr [.href 1],
   .hobj [("role", .hstr "user"), ("content", .href 2)],
   .harr [.href 3],
   .hobj [("model", .hstr "m"), ("messages", .href 4)]]

/-- The tree reading of the witness body before any estimator call. -/
def w10Json : Json :=
  Json.obj [("model", .str "m"), ("messages", .arr [Json.obj [("role", .str "user"),
    ("content", .arr [Json.obj [("type", .str "image"),
      ("source", Json.obj [("type", .str "base64"), ("data", .str "QUFBQQ==")])]])]])]

/-- C10: the estimators never mutate their argument. Over the heap model,
estimateTokens, estimateMessageTokens and stripBase64FromMessages only
extend the heap with fresh nodes (the input heap is a prefix of the output
heap), so every value readable before the call — the original body, its
messages array, every message and every content block — reads to the very
same tree afterwards. -/
theorem estimators_no_mutation (fuel : Nat) (h : Heap) (v : Option HVal)
    (msg w : HVal) (msgs : List HVal) (j : Json)
    (hw : jsonOfHeap fuel h w = some j) :
    h <+: (estimateTokensH fuel h v).1 ∧
    h <+: (estimateMessageTokensH fuel h msg).1 ∧
    h <+: (stripBase64FromMessagesH h msgs).1 ∧
    jsonOfHeap fuel (estimateTokensH fuel h v).1 w = some j ∧
    jsonOfHeap fuel (estimateMessageTokensH fuel h msg).1 w = some j ∧
    jsonOfHeap fuel (stripBase64FromMessagesH h msgs).1 w = some j :=
  ⟨estimateTokensH_ext fuel h v,
   estimateMessageTokensH_ext fuel h msg,
   stripBase64FromMessagesH_ext h msgs,
   (jsonOfHeap_mono fuel h _ (estimateTokensH_ext fuel h v)).1 w j hw,
   (jsonOfHeap_mono fuel h _ (estimateMessageTokensH_ext fuel h msg)).1 w j hw,
   (jsonOfHeap_mono fuel h _ (stripBase64FromMessagesH_ext h msgs)).1 w j hw⟩

set_option maxRecDepth 10000 in
/-- Witness: on the concrete image-bearing body, estimating the full body,
the single message, and stripping the messages list all leave the original
body reading to the same tree. -/
theorem estimators_no_mutation_witness :
    jsonOfHeap 30 w10Heap (.href 5) = some w10Json ∧
    (w10Heap <+: (estimateTokensH 30 w10Heap (some (.href 5))).1 ∧
     w10Heap <+: (estimateMessageTokensH 30 w10Heap (.href 3)).1 ∧
     w10Heap <+: (stripBase64FromMessagesH w10Heap [.href 3]).1 ∧
     jsonOfHeap 30 (estimateTokensH 30 w10Heap (some (.href 5))).1 (.href 5) = some w10Json ∧
     jsonOfHeap 30 (estimateMessageTokensH 30 w10Heap (.href 3)).1 (.href 5) = some w10Json ∧
     jsonOfHeap 30 (stripBase64FromMessagesH w10Heap [.href 3]).1 (.href 5) = some w10Json) :=
  ⟨rfl, estimators_no_mutation 30 w10Heap (some (.href 5)) (.href 3) (.href 5) [.href 3] w10Json rfl⟩
